import Mathlib

/-! # Detective Quest: the mansion explorer of `algoritmos_avancados.c`

A shallow embedding of the C program and theorems about it.

* Memory is a list of cells; the address of a room is its index, a pointer
  `Sala *` is an `Option Nat` (`none` is `NULL`).
* `stdin` is a list of C characters; `scanf(" %c", &escolha)` drops leading
  white space and stores the next character.
* `stdout` is the list of `printf` calls made, one `Saida` per call site.
-/

namespace DetectiveQuest

/-! ## Data model -/

/-- The record `struct Sala`: the room's name and its two child pointers. -/
structure Sala where
  nome : String
  esquerda : Option Nat
  direita : Option Nat
deriving DecidableEq

/-- The dynamic memory: `celulas[a]` is `some (some s)` for a live room at
address `a`, `some none` for a released block and out of range for an address
that `malloc` never returned. `capacidade` is the number of blocks `malloc`
can still hand out. -/
structure Heap where
  celulas : List (Option Sala)
  capacidade : Nat
deriving DecidableEq

/-- The room stored at address `a`, when `a` is the address of a live room. -/
def Heap.sala (h : Heap) (a : Nat) : Option Sala :=
  match h.celulas[a]? with
  | some (some s) => some s
  | _ => none

/-- The ways a call can fail to return a value. -/
inductive Falha
  /-- The call `malloc` returned `NULL`: `criarSala` prints and calls `exit(1)`. -/
  | semMemoria
  /-- The behaviour is undefined in C (bad pointer, buffer overrun). -/
  | indefinido
  /-- The bound on the recursion depth of an auxiliary function was reached. -/
  | semFolego
deriving DecidableEq

/-- One constructor per `printf` call site of the program. -/
inductive Saida
  /-- Line 32. -/
  | erroAlocacao
  /-- Line 61. -/
  | naoPodeIr
  /-- Line 66. -/
  | separadorSala
  /-- Line 67, with the `%s` argument. -/
  | voceEstaEm (nome : String)
  /-- Lines 68, 159 and 161. -/
  | separador
  /-- Line 72. -/
  | semCaminhos
  /-- Line 73. -/
  | fimExploracao
  /-- Line 78. -/
  | opcoes
  /-- Line 80. -/
  | opcaoE
  /-- Line 83. -/
  | opcaoD
  /-- Line 85. -/
  | opcaoS
  /-- Line 89. -/
  | suaEscolha
  /-- Line 99. -/
  | semEsquerda
  /-- Line 109. -/
  | semDireita
  /-- Line 116. -/
  | despedida
  /-- Line 120. -/
  | opcaoInvalida
  /-- Line 160. -/
  | bemVindo
  /-- Line 162. -/
  | intro1
  /-- Line 163. -/
  | intro2
  /-- Line 164. -/
  | intro3
  /-- Line 207. -/
  | obrigado
deriving DecidableEq

/-- The text each `printf` call writes. -/
def Saida.texto : Saida → String
  | .erroAlocacao => "Erro ao alocar memória!\n"
  | .naoPodeIr => "Você não pode ir por esse caminho!\n"
  | .separadorSala => "\n==========================================\n"
  | .voceEstaEm nome => "Você está em: " ++ nome ++ "\n"
  | .separador => "==========================================\n"
  | .semCaminhos => "\nEsta sala não possui mais caminhos.\n"
  | .fimExploracao => "Fim da exploração!\n"
  | .opcoes => "\nOpções de movimento:\n"
  | .opcaoE => "  [E] - Ir para a esquerda\n"
  | .opcaoD => "  [D] - Ir para a direita\n"
  | .opcaoS => "  [S] - Sair do jogo\n"
  | .suaEscolha => "\nSua escolha: "
  | .semEsquerda => "\nNão há caminho à esquerda!\n"
  | .semDireita => "\nNão há caminho à direita!\n"
  | .despedida => "\nVocê saiu da mansão. Até a próxima, detetive!\n"
  | .opcaoInvalida => "\nOpção inválida! Tente novamente.\n"
  | .bemVindo => "    BEM-VINDO AO DETECTIVE QUEST!\n"
  | .intro1 => "\nVocê está prestes a explorar uma mansão\n"
  | .intro2 => "misteriosa em busca de pistas.\n"
  | .intro3 => "Escolha seus caminhos com sabedoria!\n"
  | .obrigado => "\nObrigado por jogar Detective Quest!\n"

/-! ## criarSala -/

/-- The function `criarSala`: `malloc` a block, copy the name into `nome[50]`
and set both children to `NULL`. A new block gets the next unused address.
`strcpy` of a name of 50 bytes or more (49 characters and the terminator is
the most that fits) writes past the field. -/
def criarSala (h : Heap) (nome : String) : Except Falha (Nat × Heap) :=
  match h.capacidade with
  | 0 => .error .semMemoria
  | c + 1 =>
    if nome.utf8ByteSize < 50 then
      .ok (h.celulas.length,
        { celulas := h.celulas ++ [some { nome := nome, esquerda := none, direita := none }],
          capacidade := c })
    else .error .indefinido

/-- The assignment `p->esquerda = q`. -/
def Heap.atribEsquerda (h : Heap) (p : Nat) (q : Option Nat) : Except Falha Heap :=
  match h.sala p with
  | none => .error .indefinido
  | some s => .ok { h with celulas := h.celulas.set p (some { s with esquerda := q }) }

/-- The assignment `p->direita = q`. -/
def Heap.atribDireita (h : Heap) (p : Nat) (q : Option Nat) : Except Falha Heap :=
  match h.sala p with
  | none => .error .indefinido
  | some s => .ok { h with celulas := h.celulas.set p (some { s with direita := q }) }

/-- The call `free(p)` for a non-null `p`: the block must be live. -/
def Heap.free (h : Heap) (p : Nat) : Except Falha Heap :=
  match h.sala p with
  | none => .error .indefinido
  | some _ => .ok { celulas := h.celulas.set p none, capacidade := h.capacidade + 1 }

/-! ## explorarSalas -/

/-- The C function `isspace` in the "C" locale. -/
def isspace (c : Char) : Bool :=
  c = ' ' || (9 ≤ c.toNat && c.toNat ≤ 13)

/-- The call `scanf(" %c", &escolha)`: skip white space, then read one
character. `none` when the input ends before a character is found. -/
def scanfChar : List Char → Option (Char × List Char)
  | [] => none
  | c :: resto => if isspace c then scanfChar resto else some (c, resto)

/-- How a call of `explorarSalas` came to an end. -/
inductive Fim
  /-- The room pointer is `NULL` (line 62). -/
  | salaNula
  /-- The room has no children (line 74). -/
  | folha
  /-- The player chose `s` or `S` (line 117). -/
  | saiu
  /-- The input ended before a choice could be read. The call `scanf` then
  returns `EOF` and stores nothing; the source does not test the result (line
  90) and goes on to the `switch` on the unassigned `escolha` (line 93), which
  C leaves undefined. The function has not returned by line 62, 74 or 117, and
  what it does from here on is not modelled. -/
  | semEntrada
  /-- The room pointer is neither `NULL` nor the address of a live room. -/
  | indefinido
  /-- The bound on the recursion depth was reached. -/
  | semFolego
deriving DecidableEq

/-- What a session of `explorarSalas` did: the `printf` calls in order, how it
ended, the argument `salaAtual` of the innermost call, and the unread input. -/
structure Sessao where
  saida : List Saida
  fim : Fim
  sala : Option Nat
  resto : List Char
deriving DecidableEq

/-- The session `s` with the output `antes` written ahead of it. -/
def Sessao.apos (antes : List Saida) (s : Sessao) : Sessao :=
  { s with saida := antes ++ s.saida }

/-- Lines 66 to 68: the heading shown on entering a room. -/
def exibirSala (sala : Sala) : List Saida :=
  [.separadorSala, .voceEstaEm sala.nome, .separador]

/-- Lines 78 to 89: the menu of a room and the prompt. -/
def mostrarOpcoes (sala : Sala) : List Saida :=
  [.opcoes] ++ (if sala.esquerda ≠ none then [.opcaoE] else [])
    ++ (if sala.direita ≠ none then [.opcaoD] else []) ++ [.opcaoS, .suaEscolha]

/-- The function `explorarSalas` with a bound on the depth of the recursion. -/
def explorarSalasAux : Nat → Heap → Option Nat → List Char → Sessao
  | 0, _, salaAtual, stdin => ⟨[], .semFolego, salaAtual, stdin⟩
  | _ + 1, _, none, stdin => ⟨[.naoPodeIr], .salaNula, none, stdin⟩
  | n + 1, h, some p, stdin =>
    match h.sala p with
    | none => ⟨[], .indefinido, some p, stdin⟩
    | some sala =>
      if sala.esquerda = none ∧ sala.direita = none then
        ⟨exibirSala sala ++ [.semCaminhos, .fimExploracao], .folha, some p, stdin⟩
      else
        match scanfChar stdin with
        | none => ⟨exibirSala sala ++ mostrarOpcoes sala, .semEntrada, some p, []⟩
        | some (escolha, resto) =>
          if escolha = 'e' ∨ escolha = 'E' then
            if sala.esquerda ≠ none then
              (explorarSalasAux n h sala.esquerda resto).apos
                (exibirSala sala ++ mostrarOpcoes sala)
            else
              (explorarSalasAux n h (some p) resto).apos
                (exibirSala sala ++ mostrarOpcoes sala ++ [.semEsquerda])
          else if escolha = 'd' ∨ escolha = 'D' then
            if sala.direita ≠ none then
              (explorarSalasAux n h sala.direita resto).apos
                (exibirSala sala ++ mostrarOpcoes sala)
            else
              (explorarSalasAux n h (some p) resto).apos
                (exibirSala sala ++ mostrarOpcoes sala ++ [.semDireita])
          else if escolha = 's' ∨ escolha = 'S' then
            ⟨exibirSala sala ++ mostrarOpcoes sala ++ [.despedida], .saiu, some p, resto⟩
          else
            (explorarSalasAux n h (some p) resto).apos
              (exibirSala sala ++ mostrarOpcoes sala ++ [.opcaoInvalida])

/-- The function `explorarSalas`. Every recursive call comes after a
character was read, so a depth of one more than the length of the input is
never exceeded (`explorarSalasAux_folego`). -/
def explorarSalas (h : Heap) (salaAtual : Option Nat) (stdin : List Char) : Sessao :=
  explorarSalasAux (stdin.length + 1) h salaAtual stdin

/-! ## liberarArvore -/

/-- The function `liberarArvore` with a bound on the depth of the recursion.
The result is the memory after the calls and the addresses passed to `free`,
in the order of the calls. Each field is read when the C code reads it:
`sala->esquerda` before the first call, `sala->direita` after it. -/
def liberarArvoreAux : Nat → Heap → Option Nat → Except Falha (Heap × List Nat)
  | 0, _, _ => .error .semFolego
  | _ + 1, h, none => .ok (h, [])
  | n + 1, h, some p =>
    match h.sala p with
    | none => .error .indefinido
    | some sala =>
      match liberarArvoreAux n h sala.esquerda with
      | .error e => .error e
      | .ok (h1, l1) =>
        match h1.sala p with
        | none => .error .indefinido
        | some sala1 =>
          match liberarArvoreAux n h1 sala1.direita with
          | .error e => .error e
          | .ok (h2, l2) =>
            match h2.free p with
            | .error e => .error e
            | .ok h3 => .ok (h3, l1 ++ l2 ++ [p])

/-- The function `liberarArvore`. A chain of distinct live rooms is no longer
than the memory, so for a tree the bound is never reached. -/
def liberarArvore (h : Heap) (sala : Option Nat) : Except Falha (Heap × List Nat) :=
  liberarArvoreAux (h.celulas.length + 1) h sala

/-! ## main -/

/-- Lines 166 to 199 of `main`: the construction of the map. The result is
the pointer `hall` and the memory. -/
def construirMapa (h : Heap) : Except Falha (Nat × Heap) := do
  let (hall, h) ← criarSala h "Hall de Entrada"
  let (salaEstar, h) ← criarSala h "Sala de Estar"
  let (cozinha, h) ← criarSala h "Cozinha"
  let h ← h.atribEsquerda hall (some salaEstar)
  let h ← h.atribDireita hall (some cozinha)
  let (biblioteca, h) ← criarSala h "Biblioteca"
  let (escritorio, h) ← criarSala h "Escritorio"
  let h ← h.atribEsquerda salaEstar (some biblioteca)
  let h ← h.atribDireita salaEstar (some escritorio)
  let (despensa, h) ← criarSala h "Despensa"
  let (jardim, h) ← criarSala h "Jardim"
  let h ← h.atribEsquerda cozinha (some despensa)
  let h ← h.atribDireita cozinha (some jardim)
  let (salaSecreta, h) ← criarSala h "Sala Secreta"
  let (salaDeLeitura, h) ← criarSala h "Sala de Leitura"
  let h ← h.atribEsquerda biblioteca (some salaSecreta)
  let h ← h.atribDireita biblioteca (some salaDeLeitura)
  let (estufa, h) ← criarSala h "Estufa"
  let (gazebo, h) ← criarSala h "Gazebo"
  let h ← h.atribEsquerda jardim (some estufa)
  let h ← h.atribDireita jardim (some gazebo)
  return (hall, h)

/-- What a run of the program did: the `printf` calls in order, the exit
status (`none` when the run reaches no exit: the input ended at a read, or
the behaviour is undefined), the addresses passed to `free` in order, and the
unread input. -/
structure Execucao where
  saida : List Saida
  codigo : Option Nat
  liberadas : List Nat
  resto : List Char
deriving DecidableEq

/-- Lines 159 to 164: the welcome banner. -/
def boasVindas : List Saida :=
  [.separador, .bemVindo, .separador, .intro1, .intro2, .intro3]

/-- The function `main`, run with an empty memory in which `malloc` can hand
out `capacidade` blocks, and with `stdin` as input. -/
def main (capacidade : Nat) (stdin : List Char) : Execucao :=
  match construirMapa { celulas := [], capacidade := capacidade } with
  | .error .semMemoria => ⟨boasVindas ++ [.erroAlocacao], some 1, [], stdin⟩
  | .error _ => ⟨boasVindas, none, [], stdin⟩
  | .ok (hall, h) =>
    let s := explorarSalas h (some hall) stdin
    if s.fim = .salaNula ∨ s.fim = .folha ∨ s.fim = .saiu then
      match liberarArvore h (some hall) with
      | .error _ => ⟨boasVindas ++ s.saida, none, [], s.resto⟩
      | .ok (_, livres) => ⟨boasVindas ++ s.saida ++ [.obrigado], some 0, livres, s.resto⟩
    else ⟨boasVindas ++ s.saida, none, [], s.resto⟩

/-- The memory `main` builds when `malloc` can hand out exactly the 11 blocks
it asks for (`construirMapa_ok` gives the result for every larger memory). -/
def mansao : Heap :=
  match construirMapa { celulas := [], capacidade := 11 } with
  | .ok (_, h) => h
  | .error _ => { celulas := [], capacidade := 0 }

/-- A memory of two rooms in which the first has a right child only: the map
of `main` has no room with exactly one child. -/
def corredor : Heap :=
  { celulas := [some ⟨"Corredor", none, some 1⟩, some ⟨"Porao", none, none⟩], capacidade := 0 }

/-! ## Vocabulary of the specification -/

/-- The two directions of movement. -/
inductive Direcao
  | esquerda
  | direita
deriving DecidableEq

/-- The direction a character stands for in the `switch` of `explorarSalas`:
the labels `e`, `E` (left) and `d`, `D` (right). -/
def comando (c : Char) : Option Direcao :=
  if c = 'e' ∨ c = 'E' then some .esquerda
  else if c = 'd' ∨ c = 'D' then some .direita
  else none

/-- The characters of the input that `scanf(" %c", ...)` does not skip. -/
def naoBrancos (stdin : List Char) : List Char :=
  stdin.filter (fun c => !isspace c)

/-- The child pointer of the live room at address `p` in the direction `d`. -/
def Heap.filho (h : Heap) (p : Nat) (d : Direcao) : Option Nat :=
  match h.sala p with
  | none => none
  | some s =>
    match d with
    | .esquerda => s.esquerda
    | .direita => s.direita

/-- The room addressed by a path from the pointer `p`: follow the child link of
each direction in turn. `none` as soon as a room on the way has no child in
the direction asked for, so `some q` says that every link of the path is
present. -/
def Heap.destino (h : Heap) : Option Nat → List Direcao → Option Nat
  | p, [] => p
  | none, _ :: _ => none
  | some p, d :: ds => h.destino (h.filho p d) ds

/-- A room is a leaf when both its children are absent (line 71). -/
abbrev Sala.folha (s : Sala) : Prop :=
  s.esquerda = none ∧ s.direita = none

/-- The shape of a tree of rooms: each room's address and the shapes of its
left and right subtrees. -/
inductive Arvore
  | vazia
  | no (endereco : Nat) (esquerda direita : Arvore)
deriving DecidableEq

/-- The addresses of the rooms of a shape, parent first. -/
def Arvore.enderecos : Arvore → List Nat
  | .vazia => []
  | .no a e d => a :: (e.enderecos ++ d.enderecos)

/-- The addresses of the rooms of a shape in post-order: the left subtree,
the right subtree, then the room itself. -/
def Arvore.posOrdem : Arvore → List Nat
  | .vazia => []
  | .no a e d => e.posOrdem ++ d.posOrdem ++ [a]

/-- The number of rooms of a shape. -/
def Arvore.numSalas : Arvore → Nat
  | .vazia => 0
  | .no _ e d => e.numSalas + d.numSalas + 1

/-- The number of rooms on the longest chain from the root down. -/
def Arvore.profundidade : Arvore → Nat
  | .vazia => 0
  | .no _ e d => max e.profundidade d.profundidade + 1

/-- The rooms reachable from the pointer `p` in the memory `h` are laid out as
the shape `t`: `NULL` stands for the empty shape, and the address of a live
room for a node whose subtrees are laid out from the room's child pointers. -/
def Heap.representa (h : Heap) : Option Nat → Arvore → Prop
  | none, .vazia => True
  | some p, .no a e d =>
    p = a ∧ ∃ s, h.sala p = some s ∧ h.representa s.esquerda e ∧ h.representa s.direita d
  | none, .no _ _ _ => False
  | some _, .vazia => False

/-- The pointer `p` is the root of a finite tree of shape `t` in the memory
`h`: the rooms are laid out as `t` and no room occurs twice (no cycle, no
shared subtree). -/
def Heap.arvore (h : Heap) (p : Option Nat) (t : Arvore) : Prop :=
  h.representa p t ∧ t.enderecos.Nodup

/-- The shape of the map of `main`, for the addresses `construirMapa` gives
the rooms. -/
def formaMansao : Arvore :=
  .no 0
    (.no 1 (.no 3 (.no 7 .vazia .vazia) (.no 8 .vazia .vazia)) (.no 4 .vazia .vazia))
    (.no 2 (.no 5 .vazia .vazia) (.no 6 (.no 9 .vazia .vazia) (.no 10 .vazia .vazia)))

/-! ## explorarSalas with the memory and the calls on record -/

/-- What a session did, together with two things the session itself does not
show: the memory when the outermost call returns, and the recursive calls in
the order they were made, each with the movement that led to it (`some d` for
the calls of lines 97 and 107, which pass a child, `none` for those of lines
100, 110 and 121, which pass `salaAtual` again) and the pointer passed. -/
structure Rastro where
  sessao : Sessao
  memoria : Heap
  chamadas : List (Option Direcao × Option Nat)

/-- The record of a call that wrote `antes` and then made the recursive call
`c`, whose record is `r`. -/
def Rastro.apos (antes : List Saida) (c : Option Direcao × Option Nat) (r : Rastro) : Rastro :=
  { sessao := r.sessao.apos antes, memoria := r.memoria, chamadas := c :: r.chamadas }

/-- The function `explorarSalas` once more, with the memory threaded through
the calls and every recursive call put on record. No statement of the
function stores through a pointer, allocates or releases, so a call that
makes no recursive call returns with the memory it was given. -/
def explorarSalasRastroAux : Nat → Heap → Option Nat → List Char → Rastro
  | 0, h, salaAtual, stdin => ⟨⟨[], .semFolego, salaAtual, stdin⟩, h, []⟩
  | _ + 1, h, none, stdin => ⟨⟨[.naoPodeIr], .salaNula, none, stdin⟩, h, []⟩
  | n + 1, h, some p, stdin =>
    match h.sala p with
    | none => ⟨⟨[], .indefinido, some p, stdin⟩, h, []⟩
    | some sala =>
      if sala.esquerda = none ∧ sala.direita = none then
        ⟨⟨exibirSala sala ++ [.semCaminhos, .fimExploracao], .folha, some p, stdin⟩, h, []⟩
      else
        match scanfChar stdin with
        | none => ⟨⟨exibirSala sala ++ mostrarOpcoes sala, .semEntrada, some p, []⟩, h, []⟩
        | some (escolha, resto) =>
          if escolha = 'e' ∨ escolha = 'E' then
            if sala.esquerda ≠ none then
              (explorarSalasRastroAux n h sala.esquerda resto).apos
                (exibirSala sala ++ mostrarOpcoes sala) (some .esquerda, sala.esquerda)
            else
              (explorarSalasRastroAux n h (some p) resto).apos
                (exibirSala sala ++ mostrarOpcoes sala ++ [.semEsquerda]) (none, some p)
          else if escolha = 'd' ∨ escolha = 'D' then
            if sala.direita ≠ none then
              (explorarSalasRastroAux n h sala.direita resto).apos
                (exibirSala sala ++ mostrarOpcoes sala) (some .direita, sala.direita)
            else
              (explorarSalasRastroAux n h (some p) resto).apos
                (exibirSala sala ++ mostrarOpcoes sala ++ [.semDireita]) (none, some p)
          else if escolha = 's' ∨ escolha = 'S' then
            ⟨⟨exibirSala sala ++ mostrarOpcoes sala ++ [.despedida], .saiu, some p, resto⟩, h, []⟩
          else
            (explorarSalasRastroAux n h (some p) resto).apos
              (exibirSala sala ++ mostrarOpcoes sala ++ [.opcaoInvalida]) (none, some p)

/-- The record of `explorarSalas`: the first entry of `chamadas` is the call
made by `main`, the others are the recursive calls. Its session is that of
`explorarSalas` (`explorarSalasRastro_sessao`). -/
def explorarSalasRastro (h : Heap) (salaAtual : Option Nat) (stdin : List Char) : Rastro :=
  Rastro.apos [] (none, salaAtual) (explorarSalasRastroAux (stdin.length + 1) h salaAtual stdin)

/-- The calls `l` made after a call at `atual` are consistent with the memory:
a call on record without a movement passes the same pointer again, one with
the movement `d` passes the child in the direction `d`, which is present. -/
def Heap.segue (h : Heap) : Option Nat → List (Option Direcao × Option Nat) → Prop
  | _, [] => True
  | atual, (none, q) :: l => q = atual ∧ h.segue q l
  | atual, (some d, q) :: l =>
    (∃ p, atual = some p ∧ q = h.filho p d) ∧ q ≠ none ∧ h.segue q l

/-- One call to the next: the same room again, or a present child of it. -/
def Heap.passo (h : Heap) (a b : Option Direcao × Option Nat) : Prop :=
  (b.1 = none ∧ b.2 = a.2) ∨
    (∃ p d, a.2 = some p ∧ b.1 = some d ∧ b.2 = h.filho p d ∧ b.2 ≠ none)

/-- The movements among the calls on record, in order. -/
def movimentos (l : List (Option Direcao × Option Nat)) : List Direcao :=
  l.filterMap (fun c => c.1)

/-! ## The iterative explorer of the specification -/

/-- The loop of the iterative explorer the specification proposes (section
4.2 and design notes): the states are `AtRoom(atual)` and `Exited`, the loop
variable `atual` is the current room, `saida` is what was written so far. One
iteration shows the room, ends at a leaf, and otherwise reads one choice:
left and right replace `atual` by the child when it is present and report
"no path" when it is not, quit ends the loop, anything else reports an
invalid option. `n` bounds the number of iterations. -/
def lacoExplorar : Nat → Heap → Nat → List Char → List Saida → Sessao
  | 0, _, atual, stdin, saida => ⟨saida, .semFolego, some atual, stdin⟩
  | n + 1, h, atual, stdin, saida =>
    match h.sala atual with
    | none => ⟨saida, .indefinido, some atual, stdin⟩
    | some sala =>
      if sala.esquerda = none ∧ sala.direita = none then
        ⟨saida ++ exibirSala sala ++ [.semCaminhos, .fimExploracao], .folha, some atual, stdin⟩
      else
        match scanfChar stdin with
        | none => ⟨saida ++ exibirSala sala ++ mostrarOpcoes sala, .semEntrada, some atual, []⟩
        | some (escolha, resto) =>
          if escolha = 'e' ∨ escolha = 'E' then
            match sala.esquerda with
            | some q => lacoExplorar n h q resto (saida ++ exibirSala sala ++ mostrarOpcoes sala)
            | none =>
              lacoExplorar n h atual resto
                (saida ++ exibirSala sala ++ mostrarOpcoes sala ++ [.semEsquerda])
          else if escolha = 'd' ∨ escolha = 'D' then
            match sala.direita with
            | some q => lacoExplorar n h q resto (saida ++ exibirSala sala ++ mostrarOpcoes sala)
            | none =>
              lacoExplorar n h atual resto
                (saida ++ exibirSala sala ++ mostrarOpcoes sala ++ [.semDireita])
          else if escolha = 's' ∨ escolha = 'S' then
            ⟨saida ++ exibirSala sala ++ mostrarOpcoes sala ++ [.despedida], .saiu, some atual,
              resto⟩
          else
            lacoExplorar n h atual resto
              (saida ++ exibirSala sala ++ mostrarOpcoes sala ++ [.opcaoInvalida])

/-- The iterative explorer, started in the state `AtRoom(raiz)` with nothing
written. Every iteration but the last reads a character, so the loop makes at
most one iteration more than the input has characters. -/
def explorarSalasIterativo (h : Heap) (raiz : Nat) (stdin : List Char) : Sessao :=
  lacoExplorar (stdin.length + 1) h raiz stdin []

/-! ## Shape of the map -/

/-- The height of a shape: the number of links on the longest chain from the
root down. -/
def Arvore.altura (t : Arvore) : Nat :=
  t.profundidade - 1

/-- A shape is perfect when, at every room, both subtrees are perfect and of
the same depth. -/
def Arvore.perfeita : Arvore → Bool
  | .vazia => true
  | .no _ e d => e.perfeita && d.perfeita && e.profundidade == d.profundidade

/-! # Theorems -/

/-! ## Reading a choice -/

theorem scanfChar_length {stdin : List Char} {c : Char} {resto : List Char}
    (hs : scanfChar stdin = some (c, resto)) : resto.length < stdin.length := by
  induction stdin with
  | nil => simp [scanfChar] at hs
  | cons x xs ih =>
    rw [scanfChar] at hs
    split at hs
    · have := ih hs
      simp only [List.length_cons]
      omega
    · simp only [Option.some.injEq, Prod.mk.injEq] at hs
      simp [hs.2]

/-! ## The recursion bound of explorarSalas is never reached -/

theorem explorarSalasAux_congr (h : Heap) :
    ∀ (n m : Nat) (p : Option Nat) (stdin : List Char),
      stdin.length < n → stdin.length < m →
      explorarSalasAux n h p stdin = explorarSalasAux m h p stdin := by
  intro n
  induction n with
  | zero => intro m p stdin hn; omega
  | succ n ih =>
    intro m p stdin hn hm
    cases m with
    | zero => omega
    | succ m =>
      cases p with
      | none => simp [explorarSalasAux]
      | some p =>
        simp only [explorarSalasAux]
        cases h.sala p with
        | none => rfl
        | some sala =>
          simp only []
          cases hsc : scanfChar stdin with
          | none => rfl
          | some cr =>
            obtain ⟨c, resto⟩ := cr
            have hl := scanfChar_length hsc
            have e1 : ∀ q, explorarSalasAux n h q resto = explorarSalasAux m h q resto :=
              fun q => ih m q resto (by omega) (by omega)
            simp only [e1]

theorem explorarSalasAux_folego (h : Heap) (n : Nat) (p : Option Nat) (stdin : List Char)
    (hn : stdin.length < n) : explorarSalasAux n h p stdin = explorarSalas h p stdin :=
  explorarSalasAux_congr h n (stdin.length + 1) p stdin hn (Nat.lt_succ_self _)

/-- The body of `explorarSalas` for a non-null room pointer, with the
recursive calls as calls of `explorarSalas` itself. -/
theorem explorarSalas_some (h : Heap) (p : Nat) (stdin : List Char) :
    explorarSalas h (some p) stdin =
      match h.sala p with
      | none => ⟨[], .indefinido, some p, stdin⟩
      | some sala =>
        if sala.esquerda = none ∧ sala.direita = none then
          ⟨exibirSala sala ++ [.semCaminhos, .fimExploracao], .folha, some p, stdin⟩
        else
          match scanfChar stdin with
          | none => ⟨exibirSala sala ++ mostrarOpcoes sala, .semEntrada, some p, []⟩
          | some (escolha, resto) =>
            if escolha = 'e' ∨ escolha = 'E' then
              if sala.esquerda ≠ none then
                (explorarSalas h sala.esquerda resto).apos
                  (exibirSala sala ++ mostrarOpcoes sala)
              else
                (explorarSalas h (some p) resto).apos
                  (exibirSala sala ++ mostrarOpcoes sala ++ [.semEsquerda])
            else if escolha = 'd' ∨ escolha = 'D' then
              if sala.direita ≠ none then
                (explorarSalas h sala.direita resto).apos
                  (exibirSala sala ++ mostrarOpcoes sala)
              else
                (explorarSalas h (some p) resto).apos
                  (exibirSala sala ++ mostrarOpcoes sala ++ [.semDireita])
            else if escolha = 's' ∨ escolha = 'S' then
              ⟨exibirSala sala ++ mostrarOpcoes sala ++ [.despedida], .saiu, some p, resto⟩
            else
              (explorarSalas h (some p) resto).apos
                (exibirSala sala ++ mostrarOpcoes sala ++ [.opcaoInvalida]) := by
  rw [explorarSalas, explorarSalasAux]
  cases h.sala p with
  | none => rfl
  | some sala =>
    simp only []
    cases hsc : scanfChar stdin with
    | none => rfl
    | some cr =>
      obtain ⟨c, resto⟩ := cr
      have hl := scanfChar_length hsc
      have e1 : ∀ q, explorarSalasAux stdin.length h q resto = explorarSalas h q resto :=
        fun q => explorarSalasAux_folego h _ q resto hl
      simp only [e1]

theorem explorarSalas_none (h : Heap) (stdin : List Char) :
    explorarSalas h none stdin = ⟨[.naoPodeIr], .salaNula, none, stdin⟩ := by
  simp [explorarSalas, explorarSalasAux]

/-! ## Sessions with output written ahead -/

@[simp] theorem Sessao.apos_sala (a : List Saida) (s : Sessao) : (s.apos a).sala = s.sala := rfl

@[simp] theorem Sessao.apos_fim (a : List Saida) (s : Sessao) : (s.apos a).fim = s.fim := rfl

@[simp] theorem Sessao.apos_resto (a : List Saida) (s : Sessao) : (s.apos a).resto = s.resto := rfl

@[simp] theorem Sessao.apos_saida (a : List Saida) (s : Sessao) :
    (s.apos a).saida = a ++ s.saida := rfl

theorem Sessao.apos_apos (a b : List Saida) (s : Sessao) :
    (s.apos a).apos b = s.apos (b ++ a) := by
  simp [Sessao.apos]

theorem Sessao.apos_nil (s : Sessao) : s.apos [] = s := by
  simp [Sessao.apos]

theorem explorarSalas_fim_limitado (h : Heap) :
    ∀ (n : Nat) (p : Option Nat) (stdin : List Char), stdin.length < n →
      (explorarSalas h p stdin).fim ≠ .semFolego := by
  intro n
  induction n with
  | zero => intro p stdin hn; omega
  | succ n ih =>
    intro p stdin hn
    cases p with
    | none =>
      rw [explorarSalas_none]
      simp
    | some a =>
      rw [explorarSalas_some]
      cases h.sala a with
      | none => simp
      | some s =>
        simp only []
        split
        · simp
        · cases hsc : scanfChar stdin with
          | none => simp
          | some cr =>
            obtain ⟨c, resto⟩ := cr
            have hl := scanfChar_length hsc
            have hr : ∀ q, (explorarSalas h q resto).fim ≠ .semFolego :=
              fun q => ih q resto (by omega)
            simp only []
            split_ifs <;> simp only [Sessao.apos_fim] <;> first | exact hr _ | simp

/-- The function `explorarSalas` never stops at its recursion bound: a session
ends at a null pointer, at a leaf, by the choice to quit, at the end of the
input, or at a pointer to no live room. -/
theorem explorarSalas_fim_ne_semFolego (h : Heap) (p : Option Nat) (stdin : List Char) :
    (explorarSalas h p stdin).fim ≠ .semFolego :=
  explorarSalas_fim_limitado h (stdin.length + 1) p stdin (Nat.lt_succ_self _)

/-! ## The map of main -/

theorem construirMapa_ok (k : Nat) :
    construirMapa { celulas := [], capacidade := k + 11 } =
      .ok (0, { celulas := mansao.celulas, capacidade := k }) := by
  have hm : mansao.celulas =
      [some ⟨"Hall de Entrada", some 1, some 2⟩, some ⟨"Sala de Estar", some 3, some 4⟩,
       some ⟨"Cozinha", some 5, some 6⟩, some ⟨"Biblioteca", some 7, some 8⟩,
       some ⟨"Escritorio", none, none⟩, some ⟨"Despensa", none, none⟩,
       some ⟨"Jardim", some 9, some 10⟩, some ⟨"Sala Secreta", none, none⟩,
       some ⟨"Sala de Leitura", none, none⟩, some ⟨"Estufa", none, none⟩,
       some ⟨"Gazebo", none, none⟩] := by decide
  rw [hm]
  simp +decide [construirMapa, criarSala, Heap.atribEsquerda, Heap.atribDireita, Heap.sala,
    bind, Except.bind, pure, Except.pure]

theorem construirMapa_semMemoria (cap : Nat) (hc : cap < 11) :
    construirMapa { celulas := [], capacidade := cap } = .error .semMemoria := by
  interval_cases cap <;> rfl

theorem construirMapa_inv {cap hall : Nat} {h : Heap}
    (hm : construirMapa { celulas := [], capacidade := cap } = .ok (hall, h)) :
    ∃ k, cap = k + 11 ∧ hall = 0 ∧ h = { celulas := mansao.celulas, capacidade := k } := by
  rcases Nat.lt_or_ge cap 11 with hc | hc
  · rw [construirMapa_semMemoria cap hc] at hm
    cases hm
  · obtain ⟨k, rfl⟩ : ∃ k, cap = k + 11 := ⟨cap - 11, by omega⟩
    rw [construirMapa_ok] at hm
    cases hm
    exact ⟨k, rfl, rfl, rfl⟩

/-! ## Input with white space -/

theorem naoBrancos_of_scanfChar_none {stdin : List Char} (hs : scanfChar stdin = none) :
    naoBrancos stdin = [] := by
  induction stdin with
  | nil => rfl
  | cons x xs ih =>
    rw [scanfChar] at hs
    split at hs
    · rename_i hx
      simp [naoBrancos, hx]
      simpa [naoBrancos] using ih hs
    · cases hs

theorem naoBrancos_of_scanfChar_some {stdin : List Char} {c : Char} {resto : List Char}
    (hs : scanfChar stdin = some (c, resto)) : naoBrancos stdin = c :: naoBrancos resto := by
  induction stdin with
  | nil => simp [scanfChar] at hs
  | cons x xs ih =>
    rw [scanfChar] at hs
    split at hs
    · rename_i hx
      simp only [naoBrancos, List.filter_cons, hx, Bool.not_true] at *
      simpa using ih hs
    · rename_i hx
      simp only [Option.some.injEq, Prod.mk.injEq] at hs
      obtain ⟨rfl, rfl⟩ := hs
      simp [naoBrancos, hx]

theorem scanfChar_of_naoBrancos_nil {stdin : List Char} (hs : naoBrancos stdin = []) :
    scanfChar stdin = none := by
  cases hsc : scanfChar stdin with
  | none => rfl
  | some cr =>
    obtain ⟨c, resto⟩ := cr
    rw [naoBrancos_of_scanfChar_some hsc] at hs
    cases hs

theorem scanfChar_of_naoBrancos_cons {stdin : List Char} {c : Char} {cs : List Char}
    (hs : naoBrancos stdin = c :: cs) :
    ∃ resto, scanfChar stdin = some (c, resto) ∧ naoBrancos resto = cs := by
  cases hsc : scanfChar stdin with
  | none =>
    rw [naoBrancos_of_scanfChar_none hsc] at hs
    cases hs
  | some cr =>
    obtain ⟨c', resto⟩ := cr
    rw [naoBrancos_of_scanfChar_some hsc] at hs
    simp only [List.cons.injEq] at hs
    obtain ⟨rfl, rfl⟩ := hs
    exact ⟨resto, rfl, rfl⟩

/-! ## Following a path -/

theorem comando_esquerda {c : Char} (hc : comando c = some .esquerda) : c = 'e' ∨ c = 'E' := by
  unfold comando at hc
  split at hc
  · assumption
  · split at hc <;> cases hc

theorem comando_direita {c : Char} (hc : comando c = some .direita) :
    ¬ (c = 'e' ∨ c = 'E') ∧ (c = 'd' ∨ c = 'D') := by
  unfold comando at hc
  split at hc
  · cases hc
  · rename_i hne
    split at hc
    · exact ⟨hne, by assumption⟩
    · cases hc

theorem Heap.destino_none (h : Heap) (ds : List Direcao) (q : Nat) :
    h.destino none ds ≠ some q := by
  cases ds <;> simp [Heap.destino]

/-- With no choice left in the input, the session stays in the room it entered. -/
theorem explorarSalas_sala_sem_escolha (h : Heap) (p : Nat) (stdin : List Char)
    (hs : naoBrancos stdin = []) : (explorarSalas h (some p) stdin).sala = some p := by
  rw [explorarSalas_some, scanfChar_of_naoBrancos_nil hs]
  cases h.sala p with
  | none => rfl
  | some sala =>
    simp only []
    split <;> rfl

/-- A session that is given the letters of a path whose links are all present
is the session of the room at the end of the path, after the output of the
rooms on the way. -/
theorem explorarSalas_caminho (h : Heap) :
    ∀ (ds : List Direcao) (p : Nat) (stdin : List Char) (q : Nat),
      (naoBrancos stdin).map comando = ds.map some → h.destino (some p) ds = some q →
      ∃ antes resto, naoBrancos resto = [] ∧
        explorarSalas h (some p) stdin = (explorarSalas h (some q) resto).apos antes := by
  intro ds
  induction ds with
  | nil =>
    intro p stdin q hcs hd
    simp only [Heap.destino, Option.some.injEq] at hd
    subst hd
    refine ⟨[], stdin, ?_, (Sessao.apos_nil _).symm⟩
    simpa using hcs
  | cons d ds ih =>
    intro p stdin q hcs hd
    cases hnb : naoBrancos stdin with
    | nil => simp [hnb] at hcs
    | cons c cs =>
      rw [hnb] at hcs
      simp only [List.map_cons, List.cons.injEq] at hcs
      obtain ⟨hc, hcs⟩ := hcs
      obtain ⟨resto, hsc, hr⟩ := scanfChar_of_naoBrancos_cons hnb
      rw [Heap.destino] at hd
      cases hf : h.filho p d with
      | none => exact absurd (hf ▸ hd) (h.destino_none ds q)
      | some p' =>
        rw [hf] at hd
        obtain ⟨antes, resto', hr', he⟩ := ih p' resto q (hr ▸ hcs) hd
        unfold Heap.filho at hf
        cases hsala : h.sala p with
        | none => simp [hsala] at hf
        | some sala =>
          rw [hsala] at hf
          simp only [] at hf
          refine ⟨exibirSala sala ++ mostrarOpcoes sala ++ antes, resto', hr', ?_⟩
          rw [explorarSalas_some, hsala]
          simp only [hsc]
          cases d with
          | esquerda =>
            simp only [] at hf
            have hce := comando_esquerda hc
            rw [if_neg (by simp [hf]), if_pos hce, if_pos (by simp [hf]), hf, he,
              Sessao.apos_apos]
          | direita =>
            simp only [] at hf
            obtain ⟨hne, hcd⟩ := comando_direita hc
            rw [if_neg (by simp [hf]), if_neg hne, if_pos hcd, if_pos (by simp [hf]), hf, he,
              Sessao.apos_apos]

/-! ## One call of explorarSalas -/

/-- A call at a leaf: lines 66 to 74. -/
theorem explorarSalas_folha (h : Heap) (p : Nat) (s : Sala) (stdin : List Char)
    (hs : h.sala p = some s) (hf : s.folha) :
    explorarSalas h (some p) stdin =
      ⟨exibirSala s ++ [.semCaminhos, .fimExploracao], .folha, some p, stdin⟩ := by
  rw [explorarSalas_some, hs]
  simp only []
  rw [if_pos hf]

/-- A call at a room with a child, when `scanf` reads `c`: the `switch`. -/
theorem explorarSalas_escolha (h : Heap) (p : Nat) (s : Sala) (stdin : List Char) (c : Char)
    (resto : List Char) (hs : h.sala p = some s) (hnf : ¬ s.folha)
    (hsc : scanfChar stdin = some (c, resto)) :
    explorarSalas h (some p) stdin =
      if c = 'e' ∨ c = 'E' then
        if s.esquerda ≠ none then
          (explorarSalas h s.esquerda resto).apos (exibirSala s ++ mostrarOpcoes s)
        else
          (explorarSalas h (some p) resto).apos
            (exibirSala s ++ mostrarOpcoes s ++ [.semEsquerda])
      else if c = 'd' ∨ c = 'D' then
        if s.direita ≠ none then
          (explorarSalas h s.direita resto).apos (exibirSala s ++ mostrarOpcoes s)
        else
          (explorarSalas h (some p) resto).apos
            (exibirSala s ++ mostrarOpcoes s ++ [.semDireita])
      else if c = 's' ∨ c = 'S' then
        ⟨exibirSala s ++ mostrarOpcoes s ++ [.despedida], .saiu, some p, resto⟩
      else
        (explorarSalas h (some p) resto).apos
          (exibirSala s ++ mostrarOpcoes s ++ [.opcaoInvalida]) := by
  rw [explorarSalas_some, hs]
  simp only [hsc]
  rw [if_neg hnf]

/-- A call at a room with a child, when the input has no choice left. -/
theorem explorarSalas_semEntrada (h : Heap) (p : Nat) (s : Sala) (stdin : List Char)
    (hs : h.sala p = some s) (hnf : ¬ s.folha) (hsc : scanfChar stdin = none) :
    explorarSalas h (some p) stdin =
      ⟨exibirSala s ++ mostrarOpcoes s, .semEntrada, some p, []⟩ := by
  rw [explorarSalas_some, hs]
  simp only [hsc]
  rw [if_neg hnf]

/-- Every call at a room with a child starts with the heading of the room,
its menu and the prompt. -/
theorem explorarSalas_menu (h : Heap) (p : Nat) (s : Sala) (stdin : List Char)
    (hs : h.sala p = some s) (hnf : ¬ s.folha) :
    ∃ depois, (explorarSalas h (some p) stdin).saida =
      exibirSala s ++ mostrarOpcoes s ++ depois := by
  cases hsc : scanfChar stdin with
  | none =>
    rw [explorarSalas_semEntrada h p s stdin hs hnf hsc]
    exact ⟨[], by simp⟩
  | some cr =>
    obtain ⟨c, resto⟩ := cr
    rw [explorarSalas_escolha h p s stdin c resto hs hnf hsc]
    split_ifs <;> simp only [Sessao.apos_saida, List.append_assoc] <;>
      exact ⟨_, rfl⟩

/-! ## The run of main -/

theorem liberarArvore_mansao (k : Nat) :
    liberarArvore { celulas := mansao.celulas, capacidade := k } (some 0) =
      .ok ({ celulas := List.replicate 11 none, capacidade := k + 11 },
        [7, 8, 3, 4, 1, 5, 9, 10, 6, 2, 0]) := rfl

/-- When the map is built and the session returns, `main` releases the map,
writes its last line and returns 0. -/
theorem main_ok (k : Nat) (stdin : List Char)
    (hf : (explorarSalas ⟨mansao.celulas, k⟩ (some 0) stdin).fim = .salaNula ∨
      (explorarSalas ⟨mansao.celulas, k⟩ (some 0) stdin).fim = .folha ∨
      (explorarSalas ⟨mansao.celulas, k⟩ (some 0) stdin).fim = .saiu) :
    main (k + 11) stdin =
      { saida := boasVindas ++ (explorarSalas ⟨mansao.celulas, k⟩ (some 0) stdin).saida
          ++ [.obrigado],
        codigo := some 0,
        liberadas := [7, 8, 3, 4, 1, 5, 9, 10, 6, 2, 0],
        resto := (explorarSalas ⟨mansao.celulas, k⟩ (some 0) stdin).resto } := by
  unfold main
  rw [construirMapa_ok]
  simp only []
  rw [if_pos hf, liberarArvore_mansao]

/-! ## Letters -/

theorem letra_toNat (c : Char) (hc : c.isAlpha = true) :
    (65 ≤ c.toNat ∧ c.toNat ≤ 90) ∨ (97 ≤ c.toNat ∧ c.toNat ≤ 122) := by
  simp only [Char.isAlpha, Char.isUpper, Char.isLower, Bool.or_eq_true, Bool.and_eq_true,
    decide_eq_true_eq] at hc
  rcases hc with ⟨h1, h2⟩ | ⟨h1, h2⟩
  · exact Or.inl ⟨h1, h2⟩
  · exact Or.inr ⟨h1, h2⟩

/-- Both forms of a letter are read by `scanf(" %c", ...)` and fall in the same
`case` of the `switch`. -/
theorem letra_mesmo_caso (c : Char) (hc : c.isAlpha = true) :
    isspace c.toLower = false ∧ isspace c.toUpper = false ∧
      ((c.toLower = 'e' ∨ c.toLower = 'E') ↔ (c.toUpper = 'e' ∨ c.toUpper = 'E')) ∧
      ((c.toLower = 'd' ∨ c.toLower = 'D') ↔ (c.toUpper = 'd' ∨ c.toUpper = 'D')) ∧
      ((c.toLower = 's' ∨ c.toLower = 'S') ↔ (c.toUpper = 's' ∨ c.toUpper = 'S')) := by
  have hn := letra_toNat c hc
  have hco : c = Char.ofNat c.toNat := by simp [Char.ofNat_toNat]
  rw [hco]
  generalize c.toNat = n at hn
  rcases hn with ⟨h1, h2⟩ | ⟨h1, h2⟩ <;> interval_cases n <;> decide

/-! ## Releasing a tree -/

theorem Heap.sala_set_ne (cs : List (Option Sala)) (c c' : Nat) (a x : Nat) (v : Option Sala)
    (hx : x ≠ a) : Heap.sala ⟨cs.set a v, c⟩ x = Heap.sala ⟨cs, c'⟩ x := by
  simp only [Heap.sala]
  rw [List.getElem?_set_ne (Ne.symm hx)]

theorem Heap.sala_set_none (cs : List (Option Sala)) (c : Nat) (a : Nat) :
    Heap.sala ⟨cs.set a none, c⟩ a = none := by
  simp only [Heap.sala, List.getElem?_set]
  split_ifs <;> simp

theorem Heap.sala_lt {h : Heap} {a : Nat} {s : Sala} (hs : h.sala a = some s) :
    a < h.celulas.length := by
  by_contra hlt
  have : h.celulas[a]? = none := List.getElem?_eq_none (Nat.le_of_not_lt hlt)
  simp [Heap.sala, this] at hs

/-- The layout of a tree depends only on the rooms at the addresses of the tree. -/
theorem Heap.representa_congr {h h' : Heap} :
    ∀ (t : Arvore) (p : Option Nat), (∀ a ∈ t.enderecos, h'.sala a = h.sala a) →
      h.representa p t → h'.representa p t := by
  intro t
  induction t with
  | vazia =>
    intro p _ hr
    cases p with
    | none => trivial
    | some p => exact hr.elim
  | no a e d ihe ihd =>
    intro p hig hr
    cases p with
    | none => exact hr.elim
    | some p =>
      obtain ⟨rfl, s, hs, hre, hrd⟩ := hr
      have hmem : ∀ x, x ∈ e.enderecos ∨ x ∈ d.enderecos →
          x ∈ (Arvore.no p e d).enderecos := by
        intro x hx
        simp only [Arvore.enderecos, List.mem_cons, List.mem_append]
        exact Or.inr hx
      refine ⟨rfl, s, ?_, ?_, ?_⟩
      · rw [hig p (by simp [Arvore.enderecos])]
        exact hs
      · exact ihe _ (fun x hx => hig x (hmem x (Or.inl hx))) hre
      · exact ihd _ (fun x hx => hig x (hmem x (Or.inr hx))) hrd

/-- Every address of a tree laid out in the memory is the address of a live room. -/
theorem Heap.representa_viva {h : Heap} :
    ∀ (t : Arvore) (p : Option Nat), h.representa p t →
      ∀ a ∈ t.enderecos, ∃ s, h.sala a = some s := by
  intro t
  induction t with
  | vazia =>
    intro p _ a ha
    simp [Arvore.enderecos] at ha
  | no b e d ihe ihd =>
    intro p hr a ha
    cases p with
    | none => exact hr.elim
    | some p =>
      obtain ⟨rfl, s, hs, hre, hrd⟩ := hr
      simp only [Arvore.enderecos, List.mem_cons, List.mem_append] at ha
      rcases ha with rfl | ha | ha
      · exact ⟨s, hs⟩
      · exact ihe _ hre a ha
      · exact ihd _ hrd a ha

theorem Arvore.length_enderecos (t : Arvore) : t.enderecos.length = t.numSalas := by
  induction t with
  | vazia => rfl
  | no a e d ihe ihd =>
    simp only [Arvore.enderecos, Arvore.numSalas, List.length_cons, List.length_append, ihe, ihd]

theorem Arvore.length_posOrdem (t : Arvore) : t.posOrdem.length = t.numSalas := by
  induction t with
  | vazia => rfl
  | no a e d ihe ihd =>
    simp only [Arvore.posOrdem, Arvore.numSalas, List.length_append, List.length_singleton,
      ihe, ihd]

theorem Arvore.posOrdem_perm (t : Arvore) : t.posOrdem.Perm t.enderecos := by
  induction t with
  | vazia => exact List.Perm.refl _
  | no a e d ihe ihd =>
    simp only [Arvore.posOrdem, Arvore.enderecos]
    exact (List.perm_append_comm).trans ((ihe.append ihd).cons a)

theorem Arvore.profundidade_le (t : Arvore) : t.profundidade ≤ t.numSalas := by
  induction t with
  | vazia => exact Nat.le_refl _
  | no a e d ihe ihd =>
    simp only [Arvore.profundidade, Arvore.numSalas]
    omega

/-- A tree laid out in the memory has no more rooms than the memory has cells. -/
theorem Heap.arvore_numSalas_le {h : Heap} {p : Option Nat} {t : Arvore}
    (ha : h.arvore p t) : t.numSalas ≤ h.celulas.length := by
  obtain ⟨hr, hn⟩ := ha
  have hsub : t.enderecos ⊆ List.range h.celulas.length := by
    intro a hmem
    obtain ⟨s, hs⟩ := Heap.representa_viva t p hr a hmem
    exact List.mem_range.mpr (Heap.sala_lt hs)
  have := (List.subperm_of_subset hn hsub).length_le
  rwa [Arvore.length_enderecos, List.length_range] at this

/-- The function `liberarArvoreAux` on a tree, with a bound above its depth:
it returns, the calls of `free` are the post-order of the tree, the rooms of
the tree are released and the other cells are as before. -/
theorem liberarArvoreAux_arvore :
    ∀ (t : Arvore) (n : Nat) (h : Heap) (p : Option Nat),
      h.representa p t → t.enderecos.Nodup → t.profundidade < n →
      ∃ h', liberarArvoreAux n h p = .ok (h', t.posOrdem) ∧
        (∀ a, a ∉ t.enderecos → h'.sala a = h.sala a) ∧
        (∀ a ∈ t.enderecos, h'.sala a = none) := by
  intro t
  induction t with
  | vazia =>
    intro n h p hr _ hn
    cases p with
    | some p => exact hr.elim
    | none =>
      cases n with
      | zero => omega
      | succ n => exact ⟨h, rfl, fun _ _ => rfl, fun a ha => by simp [Arvore.enderecos] at ha⟩
  | no a e d ihe ihd =>
    intro n h p hr hnd hn
    cases p with
    | none => exact hr.elim
    | some p =>
      obtain ⟨rfl, s, hs, hre, hrd⟩ := hr
      cases n with
      | zero => omega
      | succ n =>
        simp only [Arvore.profundidade] at hn
        simp only [Arvore.enderecos, List.nodup_cons, List.mem_append, not_or,
          List.nodup_append] at hnd
        obtain ⟨⟨hpe, hpd⟩, hne, hndd, hdisj⟩ := hnd
        obtain ⟨h1, hl1, hf1, hz1⟩ := ihe n h s.esquerda hre hne (by omega)
        have hs1 : h1.sala p = some s := by rw [hf1 p hpe]; exact hs
        have hrd1 : h1.representa s.direita d :=
          Heap.representa_congr d _ (fun x hx => hf1 x (fun hxe => hdisj hxe hx)) hrd
        obtain ⟨h2, hl2, hf2, hz2⟩ := ihd n h1 s.direita hrd1 hndd (by omega)
        have hs2 : h2.sala p = some s := by rw [hf2 p hpd]; exact hs1
        refine ⟨{ celulas := h2.celulas.set p none, capacidade := h2.capacidade + 1 }, ?_, ?_, ?_⟩
        · simp only [liberarArvoreAux, hs, hl1, hs1, hl2, Heap.free, hs2, Arvore.posOrdem]
        · intro x hx
          simp only [Arvore.enderecos, List.mem_cons, List.mem_append, not_or] at hx
          obtain ⟨hxp, hxe, hxd⟩ := hx
          rw [Heap.sala_set_ne h2.celulas _ h2.capacidade p x none hxp]
          show h2.sala x = h.sala x
          rw [hf2 x hxd, hf1 x hxe]
        · intro x hx
          simp only [Arvore.enderecos, List.mem_cons, List.mem_append] at hx
          by_cases hxp : x = p
          · subst hxp
            exact Heap.sala_set_none _ _ _
          · rw [Heap.sala_set_ne h2.celulas _ h2.capacidade p x none hxp]
            show h2.sala x = none
            rcases hx with hx | hx | hx
            · exact absurd hx hxp
            · rw [hf2 x (fun hxd => hdisj hx hxd)]
              exact hz1 x hx
            · exact hz2 x hx

/-- The function `liberarArvore` on a tree: the recursion bound is not reached. -/
theorem liberarArvore_arvore (h : Heap) (p : Option Nat) (t : Arvore) (ha : h.arvore p t) :
    ∃ h', liberarArvore h p = .ok (h', t.posOrdem) ∧
      (∀ a, a ∉ t.enderecos → h'.sala a = h.sala a) ∧
      (∀ a ∈ t.enderecos, h'.sala a = none) := by
  have h1 := Heap.arvore_numSalas_le ha
  have h2 := t.profundidade_le
  exact liberarArvoreAux_arvore t _ h p ha.1 ha.2 (by omega)

theorem mansao_arvore (k : Nat) :
    Heap.arvore { celulas := mansao.celulas, capacidade := k } (some 0) formaMansao := by
  refine ⟨?_, by decide⟩
  unfold formaMansao
  refine ⟨rfl, _, rfl, ⟨rfl, _, rfl, ⟨rfl, _, rfl, ⟨rfl, _, rfl, ?_, ?_⟩, ⟨rfl, _, rfl, ?_, ?_⟩⟩,
    ⟨rfl, _, rfl, ?_, ?_⟩⟩, ⟨rfl, _, rfl, ⟨rfl, _, rfl, ?_, ?_⟩,
    ⟨rfl, _, rfl, ⟨rfl, _, rfl, ?_, ?_⟩, ⟨rfl, _, rfl, ?_, ?_⟩⟩⟩⟩ <;> exact True.intro

/-! ## criarSala and the links of the map -/

theorem mansao_celulas :
    mansao.celulas =
      [some ⟨"Hall de Entrada", some 1, some 2⟩, some ⟨"Sala de Estar", some 3, some 4⟩,
       some ⟨"Cozinha", some 5, some 6⟩, some ⟨"Biblioteca", some 7, some 8⟩,
       some ⟨"Escritorio", none, none⟩, some ⟨"Despensa", none, none⟩,
       some ⟨"Jardim", some 9, some 10⟩, some ⟨"Sala Secreta", none, none⟩,
       some ⟨"Sala de Leitura", none, none⟩, some ⟨"Estufa", none, none⟩,
       some ⟨"Gazebo", none, none⟩] := by decide

theorem Heap.sala_append_length (cs : List (Option Sala)) (c : Nat) (s : Sala) :
    Heap.sala ⟨cs ++ [some s], c⟩ cs.length = some s := by
  simp [Heap.sala]

theorem Heap.sala_append_ne (cs : List (Option Sala)) (c c' : Nat) (v : Option Sala) (a : Nat)
    (ha : a ≠ cs.length) : Heap.sala ⟨cs ++ [v], c⟩ a = Heap.sala ⟨cs, c'⟩ a := by
  simp only [Heap.sala]
  rcases Nat.lt_or_ge a cs.length with hlt | hge
  · rw [List.getElem?_append_left hlt]
  · have h1 : (cs ++ [v])[a]? = none :=
      List.getElem?_eq_none (by simp only [List.length_append, List.length_singleton]; omega)
    have h2 : cs[a]? = none := List.getElem?_eq_none hge
    rw [h1, h2]

theorem Heap.sala_length (h : Heap) : h.sala h.celulas.length = none := by
  have : h.celulas[h.celulas.length]? = none := List.getElem?_eq_none (Nat.le_refl _)
  simp [Heap.sala, this]

/-- The links of the map of `main`: these ten and no other. -/
theorem mansao_filho (k p : Nat) (d : Direcao) (q : Nat)
    (hf : Heap.filho ⟨mansao.celulas, k⟩ p d = some q) :
    (p = 0 ∧ d = .esquerda ∧ q = 1) ∨ (p = 0 ∧ d = .direita ∧ q = 2) ∨
    (p = 1 ∧ d = .esquerda ∧ q = 3) ∨ (p = 1 ∧ d = .direita ∧ q = 4) ∨
    (p = 2 ∧ d = .esquerda ∧ q = 5) ∨ (p = 2 ∧ d = .direita ∧ q = 6) ∨
    (p = 3 ∧ d = .esquerda ∧ q = 7) ∨ (p = 3 ∧ d = .direita ∧ q = 8) ∨
    (p = 6 ∧ d = .esquerda ∧ q = 9) ∨ (p = 6 ∧ d = .direita ∧ q = 10) := by
  rcases Nat.lt_or_ge p 11 with hlt | hge
  · interval_cases p <;> cases d <;>
      simp [Heap.filho, Heap.sala, mansao_celulas] at hf <;> subst hf <;> simp
  · have hn : Heap.sala ⟨mansao.celulas, k⟩ p = none := by
      have : mansao.celulas[p]? = none :=
        List.getElem?_eq_none (by rw [mansao_celulas]; exact hge)
      simp [Heap.sala, this]
    simp [Heap.filho, hn] at hf

/-- In the map of `main` every link leads to a greater address. -/
theorem mansao_filho_lt (k p : Nat) (d : Direcao) (q : Nat)
    (hf : Heap.filho ⟨mansao.celulas, k⟩ p d = some q) : p < q := by
  rcases mansao_filho k p d q hf with h | h | h | h | h | h | h | h | h | h <;> omega

/-- In the map of `main` a path leads to an address that is not smaller, and
to a greater one when the path is not empty. -/
theorem mansao_destino_le (k : Nat) :
    ∀ (ds : List Direcao) (p q : Nat),
      Heap.destino ⟨mansao.celulas, k⟩ (some p) ds = some q →
      p ≤ q ∧ (ds ≠ [] → p < q) := by
  intro ds
  induction ds with
  | nil =>
    intro p q hd
    simp only [Heap.destino, Option.some.injEq] at hd
    exact ⟨by omega, fun hne => absurd rfl hne⟩
  | cons d ds ih =>
    intro p q hd
    rw [Heap.destino] at hd
    cases hf : Heap.filho ⟨mansao.celulas, k⟩ p d with
    | none => exact absurd (hf ▸ hd) (Heap.destino_none _ ds q)
    | some p' =>
      rw [hf] at hd
      have h1 := mansao_filho_lt k p d p' hf
      have h2 := (ih p' q hd).1
      exact ⟨by omega, fun _ => by omega⟩

/-! ## The record of a session -/

theorem explorarSalasRastroAux_sessao (h : Heap) :
    ∀ (n : Nat) (p : Option Nat) (stdin : List Char),
      (explorarSalasRastroAux n h p stdin).sessao = explorarSalasAux n h p stdin := by
  intro n
  induction n with
  | zero => intro p stdin; rfl
  | succ n ih =>
    intro p stdin
    cases p with
    | none => rfl
    | some p =>
      simp only [explorarSalasRastroAux, explorarSalasAux]
      cases h.sala p with
      | none => rfl
      | some sala =>
        simp only []
        cases scanfChar stdin with
        | none => split <;> rfl
        | some cr =>
          obtain ⟨c, resto⟩ := cr
          simp only []
          split_ifs <;> simp only [Rastro.apos, ih]

/-- The session on record is the session of `explorarSalas`. -/
theorem explorarSalasRastro_sessao (h : Heap) (p : Option Nat) (stdin : List Char) :
    (explorarSalasRastro h p stdin).sessao = explorarSalas h p stdin := by
  simp only [explorarSalasRastro, Rastro.apos, explorarSalasRastroAux_sessao, Sessao.apos_nil,
    explorarSalas]

theorem explorarSalasRastroAux_memoria :
    ∀ (n : Nat) (h : Heap) (p : Option Nat) (stdin : List Char),
      (explorarSalasRastroAux n h p stdin).memoria = h := by
  intro n
  induction n with
  | zero => intro h p stdin; rfl
  | succ n ih =>
    intro h p stdin
    cases p with
    | none => rfl
    | some p =>
      simp only [explorarSalasRastroAux]
      cases h.sala p with
      | none => rfl
      | some sala =>
        simp only []
        cases scanfChar stdin with
        | none => split <;> rfl
        | some cr =>
          obtain ⟨c, resto⟩ := cr
          simp only []
          split_ifs <;> simp only [Rastro.apos, ih]

theorem explorarSalasRastroAux_segue (h : Heap) :
    ∀ (n : Nat) (p : Option Nat) (stdin : List Char),
      h.segue p (explorarSalasRastroAux n h p stdin).chamadas := by
  intro n
  induction n with
  | zero => intro p stdin; trivial
  | succ n ih =>
    intro p stdin
    cases p with
    | none => trivial
    | some p =>
      simp only [explorarSalasRastroAux]
      cases hs : h.sala p with
      | none => trivial
      | some sala =>
        simp only []
        cases scanfChar stdin with
        | none => split <;> trivial
        | some cr =>
          obtain ⟨c, resto⟩ := cr
          simp only []
          split_ifs with hf hc he
          · trivial
          · exact ⟨⟨p, rfl, by simp [Heap.filho, hs]⟩, he, ih _ _⟩
          · exact ⟨rfl, ih _ _⟩
          · rename_i hd hdd
            exact ⟨⟨p, rfl, by simp [Heap.filho, hs]⟩, hdd, ih _ _⟩
          · exact ⟨rfl, ih _ _⟩
          · trivial
          · exact ⟨rfl, ih _ _⟩

theorem explorarSalasRastroAux_destino (h : Heap) :
    ∀ (n : Nat) (p : Option Nat) (stdin : List Char),
      h.destino p (movimentos (explorarSalasRastroAux n h p stdin).chamadas) =
        (explorarSalasRastroAux n h p stdin).sessao.sala := by
  intro n
  induction n with
  | zero => intro p stdin; cases p <;> rfl
  | succ n ih =>
    intro p stdin
    cases p with
    | none => rfl
    | some p =>
      simp only [explorarSalasRastroAux]
      cases hs : h.sala p with
      | none => rfl
      | some sala =>
        simp only []
        cases scanfChar stdin with
        | none => split <;> rfl
        | some cr =>
          obtain ⟨c, resto⟩ := cr
          simp only []
          split_ifs with hf hc he
          · rfl
          · simp only [Rastro.apos, movimentos, List.filterMap_cons, Sessao.apos_sala,
              Heap.destino, Heap.filho, hs]
            exact ih _ _
          · simp only [Rastro.apos, movimentos, List.filterMap_cons, Sessao.apos_sala]
            exact ih _ _
          · simp only [Rastro.apos, movimentos, List.filterMap_cons, Sessao.apos_sala,
              Heap.destino, Heap.filho, hs]
            exact ih _ _
          · simp only [Rastro.apos, movimentos, List.filterMap_cons, Sessao.apos_sala]
            exact ih _ _
          · rfl
          · simp only [Rastro.apos, movimentos, List.filterMap_cons, Sessao.apos_sala]
            exact ih _ _

/-! ## Calls that follow the links, and paths in a tree -/

theorem Heap.destino_nil (h : Heap) (p : Option Nat) : h.destino p [] = p := by
  cases p <;> rfl

theorem Heap.segue_presentes (h : Heap) :
    ∀ (l : List (Option Direcao × Option Nat)) (atual : Option Nat),
      h.segue atual l → atual ≠ none → ∀ c ∈ l, c.2 ≠ none := by
  intro l
  induction l with
  | nil => intro atual _ _ c hc; simp at hc
  | cons x l ih =>
    intro atual hs hne c hc
    obtain ⟨m, q⟩ := x
    cases m with
    | none =>
      obtain ⟨rfl, hs'⟩ := hs
      rcases List.mem_cons.mp hc with rfl | hc
      · exact hne
      · exact ih q hs' hne c hc
    | some d =>
      obtain ⟨-, hq, hs'⟩ := hs
      rcases List.mem_cons.mp hc with rfl | hc
      · exact hq
      · exact ih q hs' hq c hc

theorem Heap.segue_chain (h : Heap) :
    ∀ (l : List (Option Direcao × Option Nat)) (x : Option Direcao × Option Nat),
      h.segue x.2 l → List.Chain h.passo x l := by
  intro l
  induction l with
  | nil => intro x _; exact List.Chain.nil
  | cons y l ih =>
    intro x hs
    obtain ⟨m, q⟩ := y
    cases m with
    | none =>
      obtain ⟨rfl, hs'⟩ := hs
      exact List.Chain.cons (Or.inl ⟨rfl, rfl⟩) (ih (none, x.2) hs')
    | some d =>
      obtain ⟨⟨p, hp, hq⟩, hne, hs'⟩ := hs
      exact List.Chain.cons (Or.inr ⟨p, d, hp, rfl, hq, hne⟩) (ih (some d, q) hs')

/-- The room of each call is the room at the end of the movements made up to
that call. -/
theorem Heap.segue_destino (h : Heap) :
    ∀ (l : List (Option Direcao × Option Nat)) (atual : Option Nat) (k : Nat)
      (c : Option Direcao × Option Nat),
      h.segue atual l → l[k]? = some c →
      c.2 = h.destino atual (movimentos (l.take (k + 1))) := by
  intro l
  induction l with
  | nil => intro atual k c _ hk; simp at hk
  | cons y l ih =>
    intro atual k c hs hk
    obtain ⟨m, q⟩ := y
    cases m with
    | none =>
      obtain ⟨rfl, hs'⟩ := hs
      cases k with
      | zero =>
        simp only [List.getElem?_cons_zero, Option.some.injEq] at hk
        subst hk
        simp [movimentos, Heap.destino_nil]
      | succ k =>
        simp only [List.getElem?_cons_succ] at hk
        have := ih q k c hs' hk
        simpa [movimentos] using this
    | some d =>
      obtain ⟨⟨p, rfl, rfl⟩, hne, hs'⟩ := hs
      cases k with
      | zero =>
        simp only [List.getElem?_cons_zero, Option.some.injEq] at hk
        subst hk
        simp [movimentos, Heap.destino, Heap.destino_nil]
      | succ k =>
        simp only [List.getElem?_cons_succ] at hk
        have := ih _ k c hs' hk
        simpa [movimentos, Heap.destino] using this

/-- A path in a tree laid out in the memory ends at a room of the tree. -/
theorem Heap.representa_destino_mem (h : Heap) :
    ∀ (ds : List Direcao) (t : Arvore) (p : Option Nat) (q : Nat),
      h.representa p t → h.destino p ds = some q → q ∈ t.enderecos := by
  intro ds
  induction ds with
  | nil =>
    intro t p q hr hd
    rw [Heap.destino_nil] at hd
    subst hd
    cases t with
    | vazia => exact hr.elim
    | no a e d =>
      obtain ⟨rfl, -⟩ := hr
      simp [Arvore.enderecos]
  | cons x ds ih =>
    intro t p q hr hd
    cases p with
    | none => simp [Heap.destino] at hd
    | some p =>
      cases t with
      | vazia => exact hr.elim
      | no a e d =>
        obtain ⟨rfl, s, hs, hre, hrd⟩ := hr
        simp only [Heap.destino, Heap.filho, hs] at hd
        simp only [Arvore.enderecos, List.mem_cons, List.mem_append]
        cases x with
        | esquerda => exact Or.inr (Or.inl (ih e _ q hre hd))
        | direita => exact Or.inr (Or.inr (ih d _ q hrd hd))

/-- A path in a tree has fewer links than the tree has levels. -/
theorem Heap.representa_destino_length (h : Heap) :
    ∀ (ds : List Direcao) (t : Arvore) (p : Option Nat) (q : Nat),
      h.representa p t → h.destino p ds = some q → ds.length + 1 ≤ t.profundidade := by
  intro ds
  induction ds with
  | nil =>
    intro t p q hr hd
    rw [Heap.destino_nil] at hd
    subst hd
    cases t with
    | vazia => exact hr.elim
    | no a e d => simp [Arvore.profundidade]
  | cons x ds ih =>
    intro t p q hr hd
    cases p with
    | none => simp [Heap.destino] at hd
    | some p =>
      cases t with
      | vazia => exact hr.elim
      | no a e d =>
        obtain ⟨rfl, s, hs, hre, hrd⟩ := hr
        simp only [Heap.destino, Heap.filho, hs] at hd
        simp only [Arvore.profundidade, List.length_cons]
        cases x with
        | esquerda =>
          have := ih e _ q hre hd
          omega
        | direita =>
          have := ih d _ q hrd hd
          omega

/-- In a tree, two paths from the root to the same room are the same path. -/
theorem Heap.arvore_destino_unico (h : Heap) :
    ∀ (ds1 ds2 : List Direcao) (t : Arvore) (p : Option Nat) (q : Nat),
      h.arvore p t → h.destino p ds1 = some q → h.destino p ds2 = some q → ds1 = ds2 := by
  have raiz : ∀ (x : Direcao) (ds : List Direcao) (t : Arvore) (p : Nat),
      h.arvore (some p) t → h.destino (some p) (x :: ds) ≠ some p := by
    intro x ds t p ha hd
    obtain ⟨hr, hn⟩ := ha
    cases t with
    | vazia => exact hr.elim
    | no a e d =>
      obtain ⟨rfl, s, hs, hre, hrd⟩ := hr
      simp only [Heap.destino, Heap.filho, hs] at hd
      simp only [Arvore.enderecos, List.nodup_cons, List.mem_append, not_or] at hn
      cases x with
      | esquerda => exact hn.1.1 (h.representa_destino_mem ds e _ p hre hd)
      | direita => exact hn.1.2 (h.representa_destino_mem ds d _ p hrd hd)
  intro ds1
  induction ds1 with
  | nil =>
    intro ds2 t p q ha h1 h2
    rw [Heap.destino_nil] at h1
    subst h1
    cases ds2 with
    | nil => rfl
    | cons x ds => exact absurd h2 (raiz x ds t q ha)
  | cons x1 ds1 ih =>
    intro ds2 t p q ha h1 h2
    cases p with
    | none => simp [Heap.destino] at h1
    | some p =>
      cases ds2 with
      | nil =>
        rw [Heap.destino_nil] at h2
        have hpq : p = q := by simpa using h2
        rw [← hpq] at h1
        exact absurd h1 (raiz x1 ds1 t p ha)
      | cons x2 ds2 =>
        obtain ⟨hr, hn⟩ := ha
        cases t with
        | vazia => exact hr.elim
        | no a e d =>
          obtain ⟨rfl, s, hs, hre, hrd⟩ := hr
          simp only [Heap.destino, Heap.filho, hs] at h1 h2
          simp only [Arvore.enderecos, List.nodup_cons, List.nodup_append] at hn
          obtain ⟨-, hne, hnd, hdisj⟩ := hn
          cases x1 with
          | esquerda =>
            cases x2 with
            | esquerda => rw [ih ds2 e _ q ⟨hre, hne⟩ h1 h2]
            | direita =>
              exact absurd (h.representa_destino_mem ds2 d _ q hrd h2)
                (fun hq => hdisj (h.representa_destino_mem ds1 e _ q hre h1) hq)
          | direita =>
            cases x2 with
            | esquerda =>
              exact absurd (h.representa_destino_mem ds1 d _ q hrd h1)
                (fun hq => hdisj (h.representa_destino_mem ds2 e _ q hre h2) hq)
            | direita => rw [ih ds2 d _ q ⟨hrd, hnd⟩ h1 h2]

/-! ## Sessions from a present room -/

theorem naoPodeIr_not_mem_menu (s : Sala) (extra : List Saida)
    (he : Saida.naoPodeIr ∉ extra) :
    Saida.naoPodeIr ∉ exibirSala s ++ mostrarOpcoes s ++ extra := by
  simp only [exibirSala, mostrarOpcoes, List.mem_append, not_or]
  refine ⟨⟨by simp, ⟨⟨by simp, ?_⟩, ?_⟩, by simp⟩, he⟩
  · split <;> simp
  · split <;> simp

/-- A session that starts at a present room never takes the branch of line 60. -/
theorem explorarSalas_presente (h : Heap) :
    ∀ (n : Nat) (p : Nat) (stdin : List Char), stdin.length < n →
      Saida.naoPodeIr ∉ (explorarSalas h (some p) stdin).saida ∧
        (explorarSalas h (some p) stdin).fim ≠ .salaNula := by
  intro n
  induction n with
  | zero => intro p stdin hn; omega
  | succ n ih =>
    intro p stdin hn
    cases hs : h.sala p with
    | none =>
      rw [explorarSalas_some, hs]
      exact ⟨by simp, by simp⟩
    | some s =>
      by_cases hf : s.folha
      · rw [explorarSalas_folha h p s stdin hs hf]
        exact ⟨by simp [exibirSala], by simp⟩
      · cases hsc : scanfChar stdin with
        | none =>
          rw [explorarSalas_semEntrada h p s stdin hs hf hsc]
          refine ⟨?_, by simp⟩
          simpa using naoPodeIr_not_mem_menu s [] (by simp)
        | some cr =>
          obtain ⟨c, resto⟩ := cr
          have hl := scanfChar_length hsc
          have hr : ∀ q, Saida.naoPodeIr ∉ (explorarSalas h (some q) resto).saida ∧
              (explorarSalas h (some q) resto).fim ≠ .salaNula :=
            fun q => ih q resto (by omega)
          rw [explorarSalas_escolha h p s stdin c resto hs hf hsc]
          split_ifs with hc he hd hdd hq
          · obtain ⟨q, hq⟩ := Option.ne_none_iff_exists'.mp he
            rw [hq]
            refine ⟨?_, (hr q).2⟩
            simp only [Sessao.apos_saida]
            exact fun hm => (List.mem_append.mp hm).elim
              (by simpa using naoPodeIr_not_mem_menu s [] (by simp)) (hr q).1
          · refine ⟨?_, (hr p).2⟩
            simp only [Sessao.apos_saida]
            exact fun hm => (List.mem_append.mp hm).elim
              (naoPodeIr_not_mem_menu s [.semEsquerda] (by simp)) (hr p).1
          · obtain ⟨q, hq⟩ := Option.ne_none_iff_exists'.mp hdd
            rw [hq]
            refine ⟨?_, (hr q).2⟩
            simp only [Sessao.apos_saida]
            exact fun hm => (List.mem_append.mp hm).elim
              (by simpa using naoPodeIr_not_mem_menu s [] (by simp)) (hr q).1
          · refine ⟨?_, (hr p).2⟩
            simp only [Sessao.apos_saida]
            exact fun hm => (List.mem_append.mp hm).elim
              (naoPodeIr_not_mem_menu s [.semDireita] (by simp)) (hr p).1
          · exact ⟨naoPodeIr_not_mem_menu s [.despedida] (by simp), by simp⟩
          · refine ⟨?_, (hr p).2⟩
            simp only [Sessao.apos_saida]
            exact fun hm => (List.mem_append.mp hm).elim
              (naoPodeIr_not_mem_menu s [.opcaoInvalida] (by simp)) (hr p).1

/-! ## How a session in a tree ends -/

theorem scanfChar_split {stdin : List Char} {c : Char} {resto : List Char}
    (hs : scanfChar stdin = some (c, resto)) :
    ∃ brancos, stdin = brancos ++ c :: resto ∧ ∀ b ∈ brancos, isspace b = true := by
  induction stdin with
  | nil => simp [scanfChar] at hs
  | cons x xs ih =>
    rw [scanfChar] at hs
    split at hs
    · rename_i hx
      obtain ⟨brancos, hb, hall⟩ := ih hs
      refine ⟨x :: brancos, by rw [hb]; rfl, ?_⟩
      intro b hb'
      rcases List.mem_cons.mp hb' with rfl | hb'
      · exact hx
      · exact hall b hb'
    · simp only [Option.some.injEq, Prod.mk.injEq] at hs
      obtain ⟨rfl, rfl⟩ := hs
      exact ⟨[], rfl, fun b hb => by simp at hb⟩

theorem Heap.representa_filho {h : Heap} {p : Nat} {t : Arvore}
    (hr : h.representa (some p) t) :
    ∃ s e d, t = .no p e d ∧ h.sala p = some s ∧ h.representa s.esquerda e ∧
      h.representa s.direita d := by
  cases t with
  | vazia => exact hr.elim
  | no a e d =>
    obtain ⟨rfl, s, hs, hre, hrd⟩ := hr
    exact ⟨s, e, d, rfl, hs, hre, hrd⟩

/-- A session in a tree has one of three results: it ended by the choice to
quit, the last character read; it ended at a leaf; or the input ended at the
read of a room that has a child, where the function has not returned. -/
theorem explorarSalas_fim_em_arvore (h : Heap) :
    ∀ (n : Nat) (t : Arvore) (p : Nat) (stdin : List Char), stdin.length < n →
      h.representa (some p) t →
      ((explorarSalas h (some p) stdin).fim = .saiu ∧
        ∃ lido c, stdin = lido ++ c :: (explorarSalas h (some p) stdin).resto ∧
          (c = 's' ∨ c = 'S')) ∨
      ((explorarSalas h (some p) stdin).fim = .folha ∧
        ∃ q s, (explorarSalas h (some p) stdin).sala = some q ∧ h.sala q = some s ∧
          s.folha) ∨
      ((explorarSalas h (some p) stdin).fim = .semEntrada ∧
        (explorarSalas h (some p) stdin).resto = [] ∧
        ∃ q s, (explorarSalas h (some p) stdin).sala = some q ∧ h.sala q = some s ∧
          ¬ s.folha) := by
  intro n
  induction n with
  | zero => intro t p stdin hn; omega
  | succ n ih =>
    intro t p stdin hn hr
    obtain ⟨s, e, d, rfl, hs, hre, hrd⟩ := Heap.representa_filho hr
    by_cases hf : s.folha
    · rw [explorarSalas_folha h p s stdin hs hf]
      exact Or.inr (Or.inl ⟨rfl, p, s, rfl, hs, hf⟩)
    · cases hsc : scanfChar stdin with
      | none =>
        rw [explorarSalas_semEntrada h p s stdin hs hf hsc]
        exact Or.inr (Or.inr ⟨rfl, rfl, p, s, rfl, hs, hf⟩)
      | some cr =>
        obtain ⟨c, resto⟩ := cr
        have hl := scanfChar_length hsc
        obtain ⟨brancos, hb, -⟩ := scanfChar_split hsc
        have passa : ∀ (t' : Arvore) (q : Nat) (antes : List Saida),
            h.representa (some q) t' →
            (((explorarSalas h (some q) resto).apos antes).fim = .saiu ∧
              ∃ lido c', stdin = lido ++ c' :: ((explorarSalas h (some q) resto).apos antes).resto ∧
                (c' = 's' ∨ c' = 'S')) ∨
            (((explorarSalas h (some q) resto).apos antes).fim = .folha ∧
              ∃ q' s', ((explorarSalas h (some q) resto).apos antes).sala = some q' ∧
                h.sala q' = some s' ∧ s'.folha) ∨
            (((explorarSalas h (some q) resto).apos antes).fim = .semEntrada ∧
              ((explorarSalas h (some q) resto).apos antes).resto = [] ∧
              ∃ q' s', ((explorarSalas h (some q) resto).apos antes).sala = some q' ∧
                h.sala q' = some s' ∧ ¬ s'.folha) := by
          intro t' q antes hq
          simp only [Sessao.apos_fim, Sessao.apos_resto, Sessao.apos_sala]
          rcases ih t' q resto (by omega) hq with ⟨h1, lido, c', hlido, hc'⟩ | h2 | h3
          · refine Or.inl ⟨h1, brancos ++ c :: lido, c', ?_, hc'⟩
            rw [hb]
            conv_lhs => rw [hlido]
            simp
          · exact Or.inr (Or.inl h2)
          · exact Or.inr (Or.inr h3)
        rw [explorarSalas_escolha h p s stdin c resto hs hf hsc]
        split_ifs with hc he hd hdd hq
        · obtain ⟨q, hq⟩ := Option.ne_none_iff_exists'.mp he
          rw [hq] at hre ⊢
          exact passa e q _ hre
        · exact passa _ p _ hr
        · obtain ⟨q, hq⟩ := Option.ne_none_iff_exists'.mp hdd
          rw [hq] at hrd ⊢
          exact passa d q _ hrd
        · exact passa _ p _ hr
        · exact Or.inl ⟨rfl, brancos, c, hb, hq⟩
        · exact passa _ p _ hr

/-! ## The loop of the iterative explorer -/

/-- The loop started with `acc` written is the recursive session after `acc`. -/
theorem lacoExplorar_eq (h : Heap) :
    ∀ (n : Nat) (p : Nat) (stdin : List Char) (acc : List Saida), stdin.length < n →
      lacoExplorar n h p stdin acc = (explorarSalas h (some p) stdin).apos acc := by
  intro n
  induction n with
  | zero => intro p stdin acc hn; omega
  | succ n ih =>
    intro p stdin acc hn
    rw [lacoExplorar, explorarSalas_some]
    cases h.sala p with
    | none => simp [Sessao.apos]
    | some s =>
      simp only []
      split
      · simp [Sessao.apos, List.append_assoc]
      · cases hsc : scanfChar stdin with
        | none => simp [Sessao.apos, List.append_assoc]
        | some cr =>
          obtain ⟨c, resto⟩ := cr
          have hl := scanfChar_length hsc
          have hr : ∀ q acc', lacoExplorar n h q resto acc' =
              (explorarSalas h (some q) resto).apos acc' :=
            fun q acc' => ih q resto acc' (by omega)
          simp only []
          split_ifs with hc he hd hdd hq
          · obtain ⟨q, hq⟩ := Option.ne_none_iff_exists'.mp he
            simp only [hq, hr, Sessao.apos_apos, List.append_assoc]
          · have he' : s.esquerda = none := by simpa using he
            simp only [he', hr, Sessao.apos_apos, List.append_assoc]
          · obtain ⟨q, hq⟩ := Option.ne_none_iff_exists'.mp hdd
            simp only [hq, hr, Sessao.apos_apos, List.append_assoc]
          · have hd' : s.direita = none := by simpa using hdd
            simp only [hd', hr, Sessao.apos_apos, List.append_assoc]
          · simp [Sessao.apos, List.append_assoc]
          · simp only [hr, Sessao.apos_apos, List.append_assoc]

/-! ## The calls of a session in a tree -/

theorem explorarSalasRastro_segue (h : Heap) (p : Option Nat) (stdin : List Char) :
    h.segue p (explorarSalasRastro h p stdin).chamadas :=
  ⟨rfl, explorarSalasRastroAux_segue h _ p stdin⟩

theorem explorarSalasRastro_destino (h : Heap) (p : Option Nat) (stdin : List Char) :
    h.destino p (movimentos (explorarSalasRastro h p stdin).chamadas) =
      (explorarSalas h p stdin).sala := by
  have h1 := explorarSalasRastroAux_destino h (stdin.length + 1) p stdin
  rw [explorarSalasRastroAux_sessao] at h1
  simpa [explorarSalasRastro, Rastro.apos, movimentos, explorarSalas] using h1

theorem Heap.destino_append (h : Heap) :
    ∀ (a b : List Direcao) (p : Option Nat),
      h.destino p (a ++ b) = h.destino (h.destino p a) b := by
  intro a
  induction a with
  | nil => intro b p; rw [List.nil_append, Heap.destino_nil]
  | cons x a ih =>
    intro b p
    cases p with
    | none =>
      cases b with
      | nil => simp [Heap.destino]
      | cons y b => simp [Heap.destino]
    | some p =>
      rw [List.cons_append, Heap.destino, Heap.destino]
      exact ih b _

theorem Heap.segue_destino_presente (h : Heap) :
    ∀ (l : List (Option Direcao × Option Nat)) (atual : Option Nat),
      h.segue atual l → atual ≠ none → h.destino atual (movimentos l) ≠ none := by
  intro l
  induction l with
  | nil =>
    intro atual _ hne
    simpa [movimentos, Heap.destino_nil] using hne
  | cons y l ih =>
    intro atual hs hne
    obtain ⟨m, q⟩ := y
    cases m with
    | none =>
      obtain ⟨rfl, hs'⟩ := hs
      simpa [movimentos] using ih q hs' hne
    | some d =>
      obtain ⟨⟨p, rfl, rfl⟩, hq, hs'⟩ := hs
      simpa [movimentos, Heap.destino] using ih _ hs' hq

/-- The room at the end of a path in a tree is the root of a tree. -/
theorem Heap.representa_destino_sub (h : Heap) :
    ∀ (ds : List Direcao) (t : Arvore) (p : Option Nat) (q : Nat),
      h.representa p t → h.destino p ds = some q → ∃ t', h.representa (some q) t' := by
  intro ds
  induction ds with
  | nil =>
    intro t p q hr hd
    rw [Heap.destino_nil] at hd
    subst hd
    exact ⟨t, hr⟩
  | cons x ds ih =>
    intro t p q hr hd
    cases p with
    | none => simp [Heap.destino] at hd
    | some p =>
      obtain ⟨s, e, d, rfl, hs, hre, hrd⟩ := Heap.representa_filho hr
      simp only [Heap.destino, Heap.filho, hs] at hd
      cases x with
      | esquerda => exact ih e _ q hre hd
      | direita => exact ih d _ q hrd hd

/-- From every room of a tree some path leads down to a leaf. -/
theorem Heap.representa_folha (h : Heap) :
    ∀ (t : Arvore) (p : Nat), h.representa (some p) t →
      ∃ ds q s, h.destino (some p) ds = some q ∧ h.sala q = some s ∧ s.folha := by
  intro t
  induction t with
  | vazia => intro p hr; exact hr.elim
  | no a e d ihe ihd =>
    intro p hr
    obtain ⟨rfl, s, hs, hre, hrd⟩ := hr
    cases hse : s.esquerda with
    | some q =>
      rw [hse] at hre
      obtain ⟨ds, q', s', hd, hs', hf⟩ := ihe q hre
      refine ⟨.esquerda :: ds, q', s', ?_, hs', hf⟩
      simpa [Heap.destino, Heap.filho, hs, hse] using hd
    | none =>
      cases hsd : s.direita with
      | some q =>
        rw [hsd] at hrd
        obtain ⟨ds, q', s', hd, hs', hf⟩ := ihd q hrd
        refine ⟨.direita :: ds, q', s', ?_, hs', hf⟩
        simpa [Heap.destino, Heap.filho, hs, hsd] using hd
      | none => exact ⟨[], p, s, rfl, hs, hse, hsd⟩

/-- In a tree, calls that follow the links never come back to a room that was
left. -/
theorem Heap.segue_nao_volta (h : Heap) (t : Arvore) (p : Nat)
    (cs : List (Option Direcao × Option Nat)) (ha : h.arvore (some p) t)
    (hs : h.segue (some p) cs) (i j k : Nat) (a b c : Option Direcao × Option Nat)
    (hij : i ≤ j) (hjk : j ≤ k) (hi : cs[i]? = some a) (hj : cs[j]? = some b)
    (hk : cs[k]? = some c) (hac : a.2 = c.2) : b.2 = a.2 := by
  have ea := h.segue_destino cs (some p) i a hs hi
  have eb := h.segue_destino cs (some p) j b hs hj
  have ec := h.segue_destino cs (some p) k c hs hk
  have hane : a.2 ≠ none :=
    h.segue_presentes cs (some p) hs (by simp) a (List.getElem?_mem hi)
  obtain ⟨q, hq⟩ := Option.ne_none_iff_exists'.mp hane
  have pij : movimentos (cs.take (i + 1)) <+: movimentos (cs.take (j + 1)) :=
    (List.take_prefix_take_left cs (by omega)).filterMap _
  have pjk : movimentos (cs.take (j + 1)) <+: movimentos (cs.take (k + 1)) :=
    (List.take_prefix_take_left cs (by omega)).filterMap _
  have hik : movimentos (cs.take (i + 1)) = movimentos (cs.take (k + 1)) :=
    h.arvore_destino_unico _ _ t (some p) q ha (by rw [← ea, hq]) (by rw [← ec, ← hac, hq])
  have hjk' : movimentos (cs.take (j + 1)) = movimentos (cs.take (k + 1)) := by
    apply pjk.eq_of_length
    have l1 := pij.length_le
    have l2 := pjk.length_le
    rw [hik] at l1
    omega
  rw [eb, hjk', ← ec, hac]

/-! ## Claims -/

/-- C1: for every memory and every input whose non-blank characters are the
left and right command letters of a path, every link of which is present,
`explorarSalas` started at the root ends in the room the path addresses; on
the map built by `main` the path left, left, left ends in the room named
"Sala Secreta". -/
theorem C1_explorarSalas_segue_o_caminho :
    (∀ (h : Heap) (raiz : Nat) (stdin : List Char) (ds : List Direcao) (q : Nat),
      (naoBrancos stdin).map comando = ds.map some →
      h.destino (some raiz) ds = some q →
      (explorarSalas h (some raiz) stdin).sala = some q) ∧
    (∀ (cap hall : Nat) (h : Heap) (stdin : List Char),
      construirMapa { celulas := [], capacidade := cap } = .ok (hall, h) →
      (naoBrancos stdin).map comando = [some .esquerda, some .esquerda, some .esquerda] →
      ∃ q s, (explorarSalas h (some hall) stdin).sala = some q ∧
        h.sala q = some s ∧ s.nome = "Sala Secreta") := by
  have geral : ∀ (h : Heap) (raiz : Nat) (stdin : List Char) (ds : List Direcao) (q : Nat),
      (naoBrancos stdin).map comando = ds.map some →
      h.destino (some raiz) ds = some q →
      (explorarSalas h (some raiz) stdin).sala = some q := by
    intro h raiz stdin ds q hcs hd
    obtain ⟨antes, resto, hr, he⟩ := explorarSalas_caminho h ds raiz stdin q hcs hd
    rw [he, Sessao.apos_sala, explorarSalas_sala_sem_escolha h q resto hr]
  refine ⟨geral, ?_⟩
  intro cap hall h stdin hm hcs
  obtain ⟨k, -, rfl, rfl⟩ := construirMapa_inv hm
  refine ⟨7, ⟨"Sala Secreta", none, none⟩, ?_, rfl, rfl⟩
  exact geral _ 0 stdin [.esquerda, .esquerda, .esquerda] 7 hcs rfl

/-- C1, at the map of `main` with the input `e`, `E`, `e` on three lines. -/
theorem C1_witness :
    (explorarSalas mansao (some 0) ['e', Char.ofNat 10, 'E', Char.ofNat 10, 'e', Char.ofNat 10]).sala
        = some 7 ∧
      ∃ q s, (explorarSalas mansao (some 0) ['e', 'e', 'e']).sala = some q ∧
        mansao.sala q = some s ∧ s.nome = "Sala Secreta" :=
  ⟨C1_explorarSalas_segue_o_caminho.1 mansao 0 _ [.esquerda, .esquerda, .esquerda] 7
      (by decide) (by decide),
    C1_explorarSalas_segue_o_caminho.2 11 0 mansao ['e', 'e', 'e'] rfl (by decide)⟩

/-- C2: at a room with a child, the choice of a direction whose child is
absent writes the "no path" message of that direction and goes on with a call
of `explorarSalas` at the same room on the rest of the input. -/
theorem C2_direcao_ausente (h : Heap) (p : Nat) (s : Sala) (stdin : List Char) (c : Char)
    (resto : List Char) (hs : h.sala p = some s) (hnf : ¬ s.folha)
    (hsc : scanfChar stdin = some (c, resto)) :
    ((c = 'e' ∨ c = 'E') → s.esquerda = none →
      explorarSalas h (some p) stdin =
        (explorarSalas h (some p) resto).apos
          (exibirSala s ++ mostrarOpcoes s ++ [.semEsquerda])) ∧
    ((c = 'd' ∨ c = 'D') → s.direita = none →
      explorarSalas h (some p) stdin =
        (explorarSalas h (some p) resto).apos
          (exibirSala s ++ mostrarOpcoes s ++ [.semDireita])) := by
  rw [explorarSalas_escolha h p s stdin c resto hs hnf hsc]
  constructor
  · intro hc he
    rw [if_pos hc, if_neg (by simp [he])]
  · intro hc hd
    have hne : ¬ (c = 'e' ∨ c = 'E') := by
      rcases hc with rfl | rfl <;> decide
    rw [if_neg hne, if_pos hc, if_neg (by simp [hd])]

/-- C2, at a room with a right child only, for the input `e`, `d`. -/
theorem C2_witness :
    explorarSalas corredor (some 0) ['e', 'd'] =
      (explorarSalas corredor (some 0) ['d']).apos
        (exibirSala ⟨"Corredor", none, some 1⟩ ++ mostrarOpcoes ⟨"Corredor", none, some 1⟩
          ++ [.semEsquerda]) :=
  (C2_direcao_ausente corredor 0 ⟨"Corredor", none, some 1⟩ ['e', 'd'] 'e' ['d'] rfl
    (by decide) rfl).1 (Or.inl rfl) rfl

/-- C3: a call of `explorarSalas` at a room with no children writes the
heading of the room and the end-of-exploration messages and returns: no
character of the input is read, and no other room is shown. -/
theorem C3_folha_encerra (h : Heap) (p : Nat) (s : Sala) (stdin : List Char)
    (hs : h.sala p = some s) (he : s.esquerda = none) (hd : s.direita = none) :
    explorarSalas h (some p) stdin =
      { saida := [.separadorSala, .voceEstaEm s.nome, .separador, .semCaminhos, .fimExploracao],
        fim := .folha, sala := some p, resto := stdin } :=
  explorarSalas_folha h p s stdin hs ⟨he, hd⟩

/-- C3, at the room "Sala Secreta" of the map of `main` with input left. -/
theorem C3_witness :
    explorarSalas mansao (some 7) ['e', 's'] =
      { saida := [.separadorSala, .voceEstaEm "Sala Secreta", .separador, .semCaminhos,
          .fimExploracao],
        fim := .folha, sala := some 7, resto := ['e', 's'] } :=
  C3_folha_encerra mansao 7 ⟨"Sala Secreta", none, none⟩ ['e', 's'] rfl rfl rfl

/-- C4, as stated, fails: on the map of `main` the choices right, right,
right lead to the leaf "Gazebo", where the session ends with the fourth
choice unread. -/
theorem C4_direita_tres_vezes_termina_no_gazebo :
    construirMapa { celulas := [], capacidade := 11 } = .ok (0, mansao) ∧
      (explorarSalas mansao (some 0) ['d', 'd', 'd', 'e']).sala = some 10 ∧
      (explorarSalas mansao (some 0) ['d', 'd', 'd', 'e']).fim = .folha ∧
      (explorarSalas mansao (some 0) ['d', 'd', 'd', 'e']).resto = ['e'] ∧
      mansao.sala 10 = some ⟨"Gazebo", none, none⟩ ∧
      ¬ ∃ q s, (explorarSalas mansao (some 0) ['d', 'd', 'd', 'e']).sala = some q ∧
        mansao.sala q = some s ∧ s.nome = "Estufa" := by
  refine ⟨rfl, by decide, by decide, by decide, by decide, ?_⟩
  rintro ⟨q, s, hq, hs, hn⟩
  have h10 : (explorarSalas mansao (some 0) ['d', 'd', 'd', 'e']).sala = some 10 := by decide
  rw [h10] at hq
  cases hq
  have hg : mansao.sala 10 = some ⟨"Gazebo", none, none⟩ := by decide
  rw [hg] at hs
  cases hs
  revert hn
  decide

/-- C4, amended: on the map of `main` the choices right, right, left lead to
the room named "Estufa", which has no children, and the session ends there
by the leaf rule. -/
theorem C4_estufa_por_direita_direita_esquerda (cap hall : Nat) (h : Heap)
    (stdin : List Char)
    (hm : construirMapa { celulas := [], capacidade := cap } = .ok (hall, h))
    (hcs : (naoBrancos stdin).map comando = [some .direita, some .direita, some .esquerda]) :
    ∃ q s, (explorarSalas h (some hall) stdin).sala = some q ∧ h.sala q = some s ∧
      s.nome = "Estufa" ∧ s.esquerda = none ∧ s.direita = none ∧
      (explorarSalas h (some hall) stdin).fim = .folha := by
  obtain ⟨k, -, rfl, rfl⟩ := construirMapa_inv hm
  obtain ⟨antes, resto, -, he⟩ :=
    explorarSalas_caminho ⟨mansao.celulas, k⟩ [.direita, .direita, .esquerda] 0 stdin 9 hcs rfl
  refine ⟨9, ⟨"Estufa", none, none⟩, ?_, rfl, rfl, rfl, rfl, ?_⟩
  · rw [he, Sessao.apos_sala, explorarSalas_folha ⟨mansao.celulas, k⟩ 9 ⟨"Estufa", none, none⟩ resto rfl ⟨rfl, rfl⟩]
  · rw [he, Sessao.apos_fim, explorarSalas_folha ⟨mansao.celulas, k⟩ 9 ⟨"Estufa", none, none⟩ resto rfl ⟨rfl, rfl⟩]

/-- C4 amended, at the input `d`, `d`, `e`. -/
theorem C4_witness :
    ∃ q s, (explorarSalas mansao (some 0) ['d', 'd', 'e']).sala = some q ∧
      mansao.sala q = some s ∧ s.nome = "Estufa" ∧ s.esquerda = none ∧ s.direita = none ∧
      (explorarSalas mansao (some 0) ['d', 'd', 'e']).fim = .folha :=
  C4_estufa_por_direita_direita_esquerda 11 0 mansao ['d', 'd', 'e'] rfl (by decide)

/-- C5: at a room with a child, the choice `s` or `S` writes the farewell and
returns: the session ends in the same room, with nothing after the choice
read and nothing further written; and when the session of `main` ends this
way, `main` writes its last line and returns 0. -/
theorem C5_sair_encerra :
    (∀ (h : Heap) (p : Nat) (s : Sala) (stdin : List Char) (c : Char) (resto : List Char),
      h.sala p = some s → ¬ s.folha → scanfChar stdin = some (c, resto) →
      (c = 's' ∨ c = 'S') →
      explorarSalas h (some p) stdin =
        { saida := exibirSala s ++ mostrarOpcoes s ++ [.despedida],
          fim := .saiu, sala := some p, resto := resto }) ∧
    (∀ (cap hall : Nat) (h : Heap) (stdin : List Char),
      construirMapa { celulas := [], capacidade := cap } = .ok (hall, h) →
      (explorarSalas h (some hall) stdin).fim = .saiu →
      (main cap stdin).codigo = some 0 ∧
        (main cap stdin).saida =
          boasVindas ++ (explorarSalas h (some hall) stdin).saida ++ [.obrigado] ∧
        (main cap stdin).resto = (explorarSalas h (some hall) stdin).resto) := by
  constructor
  · intro h p s stdin c resto hs hnf hsc hc
    rw [explorarSalas_escolha h p s stdin c resto hs hnf hsc]
    have hne : ¬ (c = 'e' ∨ c = 'E') := by
      rcases hc with rfl | rfl <;> decide
    have hnd : ¬ (c = 'd' ∨ c = 'D') := by
      rcases hc with rfl | rfl <;> decide
    rw [if_neg hne, if_neg hnd, if_pos hc]
  · intro cap hall h stdin hm hf
    obtain ⟨k, rfl, rfl, rfl⟩ := construirMapa_inv hm
    rw [main_ok k stdin (Or.inr (Or.inr hf))]
    exact ⟨rfl, rfl, rfl⟩

/-- C5, at the room "Cozinha" of the map of `main`, and for the run of `main`
on the input `d`, `S`, `e`. -/
theorem C5_witness :
    explorarSalas mansao (some 2) ['S', 'e'] =
        { saida := exibirSala ⟨"Cozinha", some 5, some 6⟩ ++
            mostrarOpcoes ⟨"Cozinha", some 5, some 6⟩ ++ [.despedida],
          fim := .saiu, sala := some 2, resto := ['e'] } ∧
      (main 11 ['d', 'S', 'e']).codigo = some 0 ∧
      (main 11 ['d', 'S', 'e']).saida =
        boasVindas ++ (explorarSalas mansao (some 0) ['d', 'S', 'e']).saida ++ [.obrigado] ∧
      (main 11 ['d', 'S', 'e']).resto = (explorarSalas mansao (some 0) ['d', 'S', 'e']).resto :=
  ⟨C5_sair_encerra.1 mansao 2 ⟨"Cozinha", some 5, some 6⟩ ['S', 'e'] 'S' ['e'] rfl
      (by decide) rfl (Or.inr rfl),
    C5_sair_encerra.2 11 0 mansao ['d', 'S', 'e'] rfl (by decide)⟩

/-- C6: at a room with a child, a choice that is none of the six command
letters writes the "invalid option" message and goes on with a call of
`explorarSalas` at the same room on the rest of the input, which shows the
room and its menu again. -/
theorem C6_opcao_invalida (h : Heap) (p : Nat) (s : Sala) (stdin : List Char) (c : Char)
    (resto : List Char) (hs : h.sala p = some s) (hnf : ¬ s.folha)
    (hsc : scanfChar stdin = some (c, resto))
    (hc : c ≠ 'e' ∧ c ≠ 'E' ∧ c ≠ 'd' ∧ c ≠ 'D' ∧ c ≠ 's' ∧ c ≠ 'S') :
    explorarSalas h (some p) stdin =
        (explorarSalas h (some p) resto).apos
          (exibirSala s ++ mostrarOpcoes s ++ [.opcaoInvalida]) ∧
      ∃ depois, (explorarSalas h (some p) resto).saida =
        exibirSala s ++ mostrarOpcoes s ++ depois := by
  obtain ⟨h1, h2, h3, h4, h5, h6⟩ := hc
  refine ⟨?_, explorarSalas_menu h p s resto hs hnf⟩
  rw [explorarSalas_escolha h p s stdin c resto hs hnf hsc]
  rw [if_neg (by simp [h1, h2]), if_neg (by simp [h3, h4]), if_neg (by simp [h5, h6])]

/-- C6, at the root of the map of `main` for the input `x`, `e`. -/
theorem C6_witness :
    explorarSalas mansao (some 0) ['x', 'e'] =
        (explorarSalas mansao (some 0) ['e']).apos
          (exibirSala ⟨"Hall de Entrada", some 1, some 2⟩ ++
            mostrarOpcoes ⟨"Hall de Entrada", some 1, some 2⟩ ++ [.opcaoInvalida]) ∧
      ∃ depois, (explorarSalas mansao (some 0) ['e']).saida =
        exibirSala ⟨"Hall de Entrada", some 1, some 2⟩ ++
          mostrarOpcoes ⟨"Hall de Entrada", some 1, some 2⟩ ++ depois :=
  C6_opcao_invalida mansao 0 ⟨"Hall de Entrada", some 1, some 2⟩ ['x', 'e'] 'x' ['e'] rfl
    (by decide) rfl (by decide)

/-- C7, as stated, fails: at the root of the map of `main`, whose left child
is present, the letters `L` and `l` are answered with "invalid option" and
the explorer stays in the root; the room on the left is never shown. -/
theorem C7_L_nao_e_comando :
    construirMapa { celulas := [], capacidade := 11 } = .ok (0, mansao) ∧
      mansao.sala 0 = some ⟨"Hall de Entrada", some 1, some 2⟩ ∧
      (explorarSalas mansao (some 0) ['L']).sala = some 0 ∧
      (explorarSalas mansao (some 0) ['l']).sala = some 0 ∧
      Saida.opcaoInvalida ∈ (explorarSalas mansao (some 0) ['L']).saida ∧
      Saida.opcaoInvalida ∈ (explorarSalas mansao (some 0) ['l']).saida ∧
      Saida.voceEstaEm "Sala de Estar" ∉ (explorarSalas mansao (some 0) ['L']).saida ∧
      Saida.voceEstaEm "Sala de Estar" ∉ (explorarSalas mansao (some 0) ['l']).saida ∧
      explorarSalas mansao (some 0) ['L'] ≠
        (explorarSalas mansao (some 1) []).apos
          (exibirSala ⟨"Hall de Entrada", some 1, some 2⟩ ++
            mostrarOpcoes ⟨"Hall de Entrada", some 1, some 2⟩) := by
  refine ⟨rfl, ?_, ?_, ?_, ?_, ?_, ?_, ?_, ?_⟩ <;> decide

/-- C7, amended: the left command is the letter `e` or `E`. At a room whose
left child is present it goes on with a call of `explorarSalas` at the left
child; `d` or `D` does so for a present right child; `s` or `S` ends the
session at a room that has a child. -/
theorem C7_letras_de_comando (h : Heap) (p : Nat) (s : Sala) (stdin : List Char) (c : Char)
    (resto : List Char) (hs : h.sala p = some s)
    (hsc : scanfChar stdin = some (c, resto)) :
    ((c = 'e' ∨ c = 'E') → s.esquerda ≠ none →
      explorarSalas h (some p) stdin =
        (explorarSalas h s.esquerda resto).apos (exibirSala s ++ mostrarOpcoes s)) ∧
    ((c = 'd' ∨ c = 'D') → s.direita ≠ none →
      explorarSalas h (some p) stdin =
        (explorarSalas h s.direita resto).apos (exibirSala s ++ mostrarOpcoes s)) ∧
    ((c = 's' ∨ c = 'S') → ¬ s.folha →
      explorarSalas h (some p) stdin =
        { saida := exibirSala s ++ mostrarOpcoes s ++ [.despedida],
          fim := .saiu, sala := some p, resto := resto }) := by
  refine ⟨?_, ?_, ?_⟩
  · intro hc he
    have hnf : ¬ s.folha := fun hf => he hf.1
    rw [explorarSalas_escolha h p s stdin c resto hs hnf hsc, if_pos hc, if_pos he]
  · intro hc hd
    have hnf : ¬ s.folha := fun hf => hd hf.2
    have hne : ¬ (c = 'e' ∨ c = 'E') := by
      rcases hc with rfl | rfl <;> decide
    rw [explorarSalas_escolha h p s stdin c resto hs hnf hsc, if_neg hne, if_pos hc, if_pos hd]
  · intro hc hnf
    have hne : ¬ (c = 'e' ∨ c = 'E') := by
      rcases hc with rfl | rfl <;> decide
    have hnd : ¬ (c = 'd' ∨ c = 'D') := by
      rcases hc with rfl | rfl <;> decide
    rw [explorarSalas_escolha h p s stdin c resto hs hnf hsc, if_neg hne, if_neg hnd, if_pos hc]

/-- C7 amended, at the root of the map of `main` for the input `E`, `x`. -/
theorem C7_witness :
    explorarSalas mansao (some 0) ['E', 'x'] =
      (explorarSalas mansao (some 1) ['x']).apos
        (exibirSala ⟨"Hall de Entrada", some 1, some 2⟩ ++
          mostrarOpcoes ⟨"Hall de Entrada", some 1, some 2⟩) :=
  (C7_letras_de_comando mansao 0 ⟨"Hall de Entrada", some 1, some 2⟩ ['E', 'x'] 'E' ['x'] rfl
    rfl).1 (Or.inr rfl) (by decide)

/-- C8: for every room pointer and every ASCII letter, the session that reads
the lower-case form and the session that reads the upper-case form write the
same output, end the same way and end in the same room; at a room with a
child, where the letter is read, the two sessions are equal. -/
theorem C8_maiusculas_e_minusculas (h : Heap) (p : Option Nat) (c : Char) (resto : List Char)
    (hc : c.isAlpha = true) :
    (explorarSalas h p (c.toLower :: resto)).saida =
        (explorarSalas h p (c.toUpper :: resto)).saida ∧
      (explorarSalas h p (c.toLower :: resto)).fim =
        (explorarSalas h p (c.toUpper :: resto)).fim ∧
      (explorarSalas h p (c.toLower :: resto)).sala =
        (explorarSalas h p (c.toUpper :: resto)).sala ∧
      (∀ a s, p = some a → h.sala a = some s → ¬ s.folha →
        explorarSalas h p (c.toLower :: resto) = explorarSalas h p (c.toUpper :: resto)) := by
  obtain ⟨hl, hu, he, hd, hs⟩ := letra_mesmo_caso c hc
  have hscl : scanfChar (c.toLower :: resto) = some (c.toLower, resto) := by
    simp [scanfChar, hl]
  have hscu : scanfChar (c.toUpper :: resto) = some (c.toUpper, resto) := by
    simp [scanfChar, hu]
  have igual : ∀ a s, p = some a → h.sala a = some s → ¬ s.folha →
      explorarSalas h p (c.toLower :: resto) = explorarSalas h p (c.toUpper :: resto) := by
    intro a s hp hsa hnf
    subst hp
    rw [explorarSalas_escolha h a s _ _ resto hsa hnf hscl,
      explorarSalas_escolha h a s _ _ resto hsa hnf hscu]
    simp only [he, hd, hs]
  cases p with
  | none =>
    refine ⟨?_, ?_, ?_, igual⟩ <;> simp only [explorarSalas_none]
  | some a =>
    cases hsa : h.sala a with
    | none =>
      refine ⟨?_, ?_, ?_, igual⟩ <;> simp only [explorarSalas_some, hsa]
    | some s =>
      by_cases hf : s.folha
      · refine ⟨?_, ?_, ?_, igual⟩ <;> simp only [explorarSalas_folha h a s _ hsa hf]
      · have hi := igual a s rfl hsa hf
        refine ⟨?_, ?_, ?_, igual⟩ <;> rw [hi]

/-- C8, for the letter `d` at the root of the map of `main`. -/
theorem C8_witness :
    (explorarSalas mansao (some 0) ['d', 'x']).saida =
        (explorarSalas mansao (some 0) ['D', 'x']).saida ∧
      (explorarSalas mansao (some 0) ['d', 'x']).fim =
        (explorarSalas mansao (some 0) ['D', 'x']).fim ∧
      (explorarSalas mansao (some 0) ['d', 'x']).sala =
        (explorarSalas mansao (some 0) ['D', 'x']).sala ∧
      (∀ a s, some 0 = some a → mansao.sala a = some s → ¬ s.folha →
        explorarSalas mansao (some 0) ['d', 'x'] = explorarSalas mansao (some 0) ['D', 'x']) :=
  C8_maiusculas_e_minusculas mansao (some 0) 'd' ['x'] (by decide)

/-- C9: for every finite tree in the memory, `liberarArvore` at the root
returns, and its calls of `free` are the post-order of the tree (left subtree,
right subtree, then the room): every room of the tree is released exactly
once, the number of calls is the number of rooms, each room of the tree is
live before and released after, and no other cell changes. The map built by
`main` is such a tree of 11 rooms, and a run of `main` that returns 0 made 11
calls of `free`, no address twice. -/
theorem C9_liberarArvore_pos_ordem :
    (∀ (h : Heap) (raiz : Option Nat) (t : Arvore), h.arvore raiz t →
      ∃ h', liberarArvore h raiz = .ok (h', t.posOrdem) ∧
        t.posOrdem.Perm t.enderecos ∧ t.posOrdem.Nodup ∧
        t.posOrdem.length = t.numSalas ∧
        (∀ a ∈ t.enderecos, h.sala a ≠ none ∧ h'.sala a = none) ∧
        (∀ a, a ∉ t.enderecos → h'.sala a = h.sala a)) ∧
    (∀ (cap hall : Nat) (h : Heap),
      construirMapa { celulas := [], capacidade := cap } = .ok (hall, h) →
      h.celulas.length = 11 ∧ h.arvore (some hall) formaMansao ∧
        formaMansao.numSalas = 11 ∧
        ∃ h', liberarArvore h (some hall) = .ok (h', formaMansao.posOrdem)) ∧
    (∀ (cap : Nat) (stdin : List Char), (main cap stdin).codigo = some 0 →
      (main cap stdin).liberadas.length = 11 ∧ (main cap stdin).liberadas.Nodup) := by
  refine ⟨?_, ?_, ?_⟩
  · intro h raiz t ha
    obtain ⟨h', hl, hfora, hdentro⟩ := liberarArvore_arvore h raiz t ha
    refine ⟨h', hl, t.posOrdem_perm, (t.posOrdem_perm.nodup_iff).mpr ha.2,
      t.length_posOrdem, ?_, hfora⟩
    intro a hmem
    obtain ⟨s, hs⟩ := Heap.representa_viva t raiz ha.1 a hmem
    exact ⟨by rw [hs]; exact Option.some_ne_none s, hdentro a hmem⟩
  · intro cap hall h hm
    obtain ⟨k, -, rfl, rfl⟩ := construirMapa_inv hm
    obtain ⟨h', hl, -, -⟩ := liberarArvore_arvore _ _ _ (mansao_arvore k)
    exact ⟨rfl, mansao_arvore k, rfl, h', hl⟩
  · intro cap stdin hc
    rcases Nat.lt_or_ge cap 11 with hlt | hge
    · unfold main at hc
      rw [construirMapa_semMemoria cap hlt] at hc
      simp at hc
    · obtain ⟨k, rfl⟩ : ∃ k, cap = k + 11 := ⟨cap - 11, by omega⟩
      by_cases hf : (explorarSalas ⟨mansao.celulas, k⟩ (some 0) stdin).fim = .salaNula ∨
          (explorarSalas ⟨mansao.celulas, k⟩ (some 0) stdin).fim = .folha ∨
          (explorarSalas ⟨mansao.celulas, k⟩ (some 0) stdin).fim = .saiu
      · rw [main_ok k stdin hf]
        have hnd : [7, 8, 3, 4, 1, 5, 9, 10, 6, 2, 0].Nodup := by decide
        exact ⟨rfl, hnd⟩
      · unfold main at hc
        rw [construirMapa_ok] at hc
        simp only [] at hc
        rw [if_neg hf] at hc
        simp at hc

/-- C9, at the map of `main`. -/
theorem C9_witness :
    (∃ h', liberarArvore mansao (some 0) = .ok (h', formaMansao.posOrdem) ∧
        formaMansao.posOrdem.Perm formaMansao.enderecos ∧ formaMansao.posOrdem.Nodup ∧
        formaMansao.posOrdem.length = formaMansao.numSalas ∧
        (∀ a ∈ formaMansao.enderecos, mansao.sala a ≠ none ∧ h'.sala a = none) ∧
        (∀ a, a ∉ formaMansao.enderecos → h'.sala a = mansao.sala a)) ∧
      (main 11 ['e', 's']).liberadas.length = 11 ∧ (main 11 ['e', 's']).liberadas.Nodup :=
  ⟨C9_liberarArvore_pos_ordem.1 mansao (some 0) formaMansao (mansao_arvore 0),
    C9_liberarArvore_pos_ordem.2.2 11 ['e', 's'] (by decide)⟩

/-- C10: every call of `explorarSalas` at a live room first writes the heading
with the name of the room; at a room with a child it then writes the menu,
in which the left option stands exactly when the left child is present, the
right option exactly when the right child is present, the quit option always,
and nothing else, and then the prompt. -/
theorem C10_exibe_sala_e_opcoes (h : Heap) (p : Nat) (s : Sala) (stdin : List Char)
    (hs : h.sala p = some s) :
    (∃ depois, (explorarSalas h (some p) stdin).saida =
      [.separadorSala, .voceEstaEm s.nome, .separador] ++ depois) ∧
    (¬ s.folha → ∃ menu depois,
      (explorarSalas h (some p) stdin).saida =
        [.separadorSala, .voceEstaEm s.nome, .separador, .opcoes] ++ menu ++
          [.suaEscolha] ++ depois ∧
      (Saida.opcaoE ∈ menu ↔ s.esquerda ≠ none) ∧
      (Saida.opcaoD ∈ menu ↔ s.direita ≠ none) ∧
      Saida.opcaoS ∈ menu ∧
      ∀ x ∈ menu, x = Saida.opcaoE ∨ x = Saida.opcaoD ∨ x = Saida.opcaoS) := by
  constructor
  · by_cases hf : s.folha
    · rw [explorarSalas_folha h p s stdin hs hf]
      exact ⟨[.semCaminhos, .fimExploracao], rfl⟩
    · obtain ⟨depois, hd⟩ := explorarSalas_menu h p s stdin hs hf
      exact ⟨mostrarOpcoes s ++ depois, by rw [hd]; simp [exibirSala]⟩
  · intro hnf
    obtain ⟨depois, hd⟩ := explorarSalas_menu h p s stdin hs hnf
    refine ⟨(if s.esquerda ≠ none then [.opcaoE] else []) ++
      (if s.direita ≠ none then [.opcaoD] else []) ++ [.opcaoS], depois, ?_, ?_, ?_, ?_, ?_⟩
    · rw [hd]
      simp [exibirSala, mostrarOpcoes]
    · by_cases he : s.esquerda = none <;> by_cases hd' : s.direita = none <;> simp [he, hd']
    · by_cases he : s.esquerda = none <;> by_cases hd' : s.direita = none <;> simp [he, hd']
    · simp
    · intro x hx
      by_cases he : s.esquerda = none <;> by_cases hd' : s.direita = none <;>
        simp only [he, hd', ne_eq, not_true_eq_false, not_false_eq_true, if_true, if_false,
          List.mem_append, List.mem_singleton, List.not_mem_nil, false_or, or_false] at hx <;>
        tauto

/-- C10, at the room with a right child only, for the input `d`. -/
theorem C10_witness :
    (∃ depois, (explorarSalas corredor (some 0) ['d']).saida =
      [.separadorSala, .voceEstaEm "Corredor", .separador] ++ depois) ∧
    (¬ Sala.folha ⟨"Corredor", none, some 1⟩ → ∃ menu depois,
      (explorarSalas corredor (some 0) ['d']).saida =
        [.separadorSala, .voceEstaEm "Corredor", .separador, .opcoes] ++ menu ++
          [.suaEscolha] ++ depois ∧
      (Saida.opcaoE ∈ menu ↔ (none : Option Nat) ≠ none) ∧
      (Saida.opcaoD ∈ menu ↔ some 1 ≠ none) ∧
      Saida.opcaoS ∈ menu ∧
      ∀ x ∈ menu, x = Saida.opcaoE ∨ x = Saida.opcaoD ∨ x = Saida.opcaoS) :=
  C10_exibe_sala_e_opcoes corredor 0 ⟨"Corredor", none, some 1⟩ ['d'] rfl

/-- C11: for every name of fewer than 50 bytes, `criarSala` either fails because
`malloc` has no block left, or returns the address of a block that was not a
room before and now holds a room with the given name and both children
absent, every other room being as before; and a run of `main` in which an
allocation fails writes the error message and exits with status 1. -/
theorem C11_criarSala_sala_nova_sem_filhos :
    (∀ (h : Heap) (nome : String), nome.utf8ByteSize < 50 →
      (h.capacidade = 0 → criarSala h nome = .error .semMemoria) ∧
      (h.capacidade ≠ 0 → ∃ a h', criarSala h nome = .ok (a, h') ∧
        h.sala a = none ∧
        h'.sala a = some { nome := nome, esquerda := none, direita := none } ∧
        (∀ x, x ≠ a → h'.sala x = h.sala x))) ∧
    (∀ (cap : Nat) (stdin : List Char), cap < 11 →
      main cap stdin =
        { saida := boasVindas ++ [.erroAlocacao], codigo := some 1, liberadas := [],
          resto := stdin }) := by
  constructor
  · intro h nome hn
    constructor
    · intro hc
      simp [criarSala, hc]
    · intro hc
      obtain ⟨c, hc'⟩ : ∃ c, h.capacidade = c + 1 := ⟨h.capacidade - 1, by omega⟩
      refine ⟨h.celulas.length,
        { celulas := h.celulas ++ [some { nome := nome, esquerda := none, direita := none }],
          capacidade := c },
        ?_, h.sala_length, Heap.sala_append_length _ _ _, ?_⟩
      · simp only [criarSala, hc', if_pos hn]
      · intro x hx
        exact Heap.sala_append_ne h.celulas c h.capacidade _ x hx
  · intro cap stdin hc
    unfold main
    rw [construirMapa_semMemoria cap hc]

/-- C11, for the second room of `main` made in a memory that holds one room,
and for a run of `main` with room for three blocks. -/
theorem C11_witness :
    ((Heap.capacidade ⟨[some ⟨"Hall de Entrada", none, none⟩], 10⟩ = 0 →
        criarSala ⟨[some ⟨"Hall de Entrada", none, none⟩], 10⟩ "Sala de Estar" =
          .error .semMemoria) ∧
      (Heap.capacidade ⟨[some ⟨"Hall de Entrada", none, none⟩], 10⟩ ≠ 0 → ∃ a h',
        criarSala ⟨[some ⟨"Hall de Entrada", none, none⟩], 10⟩ "Sala de Estar" = .ok (a, h') ∧
        Heap.sala ⟨[some ⟨"Hall de Entrada", none, none⟩], 10⟩ a = none ∧
        h'.sala a = some { nome := "Sala de Estar", esquerda := none, direita := none } ∧
        (∀ x, x ≠ a →
          h'.sala x = Heap.sala ⟨[some ⟨"Hall de Entrada", none, none⟩], 10⟩ x))) ∧
      main 3 ['e'] =
        { saida := boasVindas ++ [.erroAlocacao], codigo := some 1, liberadas := [],
          resto := ['e'] } :=
  ⟨C11_criarSala_sala_nova_sem_filhos.1 ⟨[some ⟨"Hall de Entrada", none, none⟩], 10⟩
      "Sala de Estar" (by decide),
    C11_criarSala_sala_nova_sem_filhos.2 3 ['e'] (by decide)⟩

/-- C12: in the memory built by `main` the 11 rooms are laid out as a tree
from `hall` with no address twice, every room is reached from `hall`, every
present link leads to a live room that is neither the room itself nor a room
with a path to it, and no room is the target of two links. -/
theorem C12_mapa_e_uma_arvore (cap hall : Nat) (h : Heap)
    (hm : construirMapa { celulas := [], capacidade := cap } = .ok (hall, h)) :
    h.celulas.length = 11 ∧ (∀ a, a < 11 → ∃ s, h.sala a = some s) ∧
      h.arvore (some hall) formaMansao ∧ formaMansao.numSalas = 11 ∧
      (∀ a, a < 11 → ∃ ds, h.destino (some hall) ds = some a) ∧
      (∀ r d q, h.filho r d = some q →
        (∃ s, h.sala q = some s) ∧ q ≠ r ∧
          ∀ a ds, h.destino (some a) ds = some r → q ≠ a) ∧
      (∀ p p' d d' q, h.filho p d = some q → h.filho p' d' = some q → p = p' ∧ d = d') := by
  obtain ⟨k, -, rfl, rfl⟩ := construirMapa_inv hm
  refine ⟨rfl, ?_, mansao_arvore k, rfl, ?_, ?_, ?_⟩
  · intro a ha
    interval_cases a <;> exact ⟨_, rfl⟩
  · intro a ha
    interval_cases a
    · exact ⟨[], rfl⟩
    · exact ⟨[.esquerda], rfl⟩
    · exact ⟨[.direita], rfl⟩
    · exact ⟨[.esquerda, .esquerda], rfl⟩
    · exact ⟨[.esquerda, .direita], rfl⟩
    · exact ⟨[.direita, .esquerda], rfl⟩
    · exact ⟨[.direita, .direita], rfl⟩
    · exact ⟨[.esquerda, .esquerda, .esquerda], rfl⟩
    · exact ⟨[.esquerda, .esquerda, .direita], rfl⟩
    · exact ⟨[.direita, .direita, .esquerda], rfl⟩
    · exact ⟨[.direita, .direita, .direita], rfl⟩
  · intro r d q hf
    have hlt := mansao_filho_lt k r d q hf
    refine ⟨?_, by omega, ?_⟩
    · rcases mansao_filho k r d q hf with h1 | h1 | h1 | h1 | h1 | h1 | h1 | h1 | h1 | h1 <;>
        obtain ⟨-, -, rfl⟩ := h1 <;> exact ⟨_, rfl⟩
    · intro a ds hd
      have := (mansao_destino_le k ds a r hd).1
      omega
  · intro p p' d d' q hf hf'
    rcases mansao_filho k p d q hf with h1 | h1 | h1 | h1 | h1 | h1 | h1 | h1 | h1 | h1 <;>
      rcases mansao_filho k p' d' q hf' with h2 | h2 | h2 | h2 | h2 | h2 | h2 | h2 | h2 | h2 <;>
      obtain ⟨rfl, rfl, hq⟩ := h1 <;> obtain ⟨rfl, rfl, hq'⟩ := h2 <;>
      first | exact ⟨rfl, rfl⟩ | omega

/-- C12, at the memory `main` builds with 11 blocks. -/
theorem C12_witness :
    mansao.celulas.length = 11 ∧ (∀ a, a < 11 → ∃ s, mansao.sala a = some s) ∧
      mansao.arvore (some 0) formaMansao ∧ formaMansao.numSalas = 11 ∧
      (∀ a, a < 11 → ∃ ds, mansao.destino (some 0) ds = some a) ∧
      (∀ r d q, mansao.filho r d = some q →
        (∃ s, mansao.sala q = some s) ∧ q ≠ r ∧
          ∀ a ds, mansao.destino (some a) ds = some r → q ≠ a) ∧
      (∀ p p' d d' q, mansao.filho p d = some q → mansao.filho p' d' = some q →
        p = p' ∧ d = d') :=
  C12_mapa_e_uma_arvore 11 0 mansao rfl

/-- C13: for every memory, room pointer and input, the memory with which the
session of `explorarSalas` returns is the memory it was given: every room has
the name and the links it had, no cell was added and none released, and
`malloc` can hand out as many blocks as before. -/
theorem C13_explorarSalas_nao_altera_a_memoria (h : Heap) (p : Option Nat)
    (stdin : List Char) :
    (explorarSalasRastro h p stdin).sessao = explorarSalas h p stdin ∧
      (explorarSalasRastro h p stdin).memoria = h ∧
      (∀ a, (explorarSalasRastro h p stdin).memoria.sala a = h.sala a) ∧
      (explorarSalasRastro h p stdin).memoria.celulas.length = h.celulas.length ∧
      (explorarSalasRastro h p stdin).memoria.capacidade = h.capacidade := by
  have hm : (explorarSalasRastro h p stdin).memoria = h := by
    simp only [explorarSalasRastro, Rastro.apos, explorarSalasRastroAux_memoria]
  refine ⟨explorarSalasRastro_sessao h p stdin, hm, ?_, ?_, ?_⟩
  · intro a
    rw [hm]
  · rw [hm]
  · rw [hm]

/-- C14, which the code breaks at the end of the input. At the root of the map
of `main`, a room with two children, the read of line 90 finds no character,
at once or after the choice `x`: nothing is stored in `escolha`, the result
of `scanf` is not tested, and the session is over without a quit command
read and without a leaf reached. It has not returned by the quit branch nor
by the leaf branch, the current room is the root, the last character read,
if any, is `x`, and `main` reaches no exit. -/
theorem C14_fim_da_entrada_sem_sair_nem_folha :
    construirMapa { celulas := [], capacidade := 11 } = .ok (0, mansao) ∧
      mansao.sala 0 = some ⟨"Hall de Entrada", some 1, some 2⟩ ∧
      scanfChar [] = none ∧
      explorarSalas mansao (some 0) [] =
        { saida := exibirSala ⟨"Hall de Entrada", some 1, some 2⟩ ++
            mostrarOpcoes ⟨"Hall de Entrada", some 1, some 2⟩,
          fim := .semEntrada, sala := some 0, resto := [] } ∧
      (explorarSalas mansao (some 0) []).fim ≠ .saiu ∧
      (explorarSalas mansao (some 0) []).fim ≠ .folha ∧
      scanfChar ['x'] = some ('x', []) ∧
      explorarSalas mansao (some 0) ['x'] =
        { saida := exibirSala ⟨"Hall de Entrada", some 1, some 2⟩ ++
            mostrarOpcoes ⟨"Hall de Entrada", some 1, some 2⟩ ++ [.opcaoInvalida] ++
            exibirSala ⟨"Hall de Entrada", some 1, some 2⟩ ++
            mostrarOpcoes ⟨"Hall de Entrada", some 1, some 2⟩,
          fim := .semEntrada, sala := some 0, resto := [] } ∧
      (explorarSalas mansao (some 0) ['x']).fim ≠ .saiu ∧
      (explorarSalas mansao (some 0) ['x']).fim ≠ .folha ∧
      (main 11 []).codigo = none ∧ (main 11 ['x']).codigo = none := by
  refine ⟨rfl, ?_, ?_, ?_, ?_, ?_, ?_, ?_, ?_, ?_, ?_, ?_⟩ <;> decide

/-- C15: in a tree, let `cs` be the calls of a session, the first call
included. Each call passes the room of the call before it or a present child
of that room; the room of every call lies on the one path made of the
movements of the session, which starts at the root, ends at the room where
the session ends and goes on to a leaf; a room that was left is never passed
again; and there are no more movements than the tree is high. -/
theorem C15_so_desce_sem_voltar (h : Heap) (t : Arvore) (raiz : Nat) (stdin : List Char)
    (cs : List (Option Direcao × Option Nat)) (ha : h.arvore (some raiz) t)
    (hcs : cs = (explorarSalasRastro h (some raiz) stdin).chamadas) :
    (explorarSalasRastro h (some raiz) stdin).sessao = explorarSalas h (some raiz) stdin ∧
      List.Chain' h.passo cs ∧
      (∀ (k : Nat) (c : Option Direcao × Option Nat), cs[k]? = some c →
        ∃ ds, ds <+: movimentos cs ∧ c.2 = h.destino (some raiz) ds ∧ c.2 ≠ none) ∧
      h.destino (some raiz) (movimentos cs) = (explorarSalas h (some raiz) stdin).sala ∧
      (∃ resto q s, h.destino (some raiz) (movimentos cs ++ resto) = some q ∧
        h.sala q = some s ∧ s.folha) ∧
      (∀ (i j k : Nat) (a b c : Option Direcao × Option Nat), i ≤ j → j ≤ k →
        cs[i]? = some a → cs[j]? = some b → cs[k]? = some c →
        a.2 = c.2 → b.2 = a.2) ∧
      (movimentos cs).length ≤ t.altura := by
  have hs : h.segue (some raiz) cs := hcs ▸ explorarSalasRastro_segue h (some raiz) stdin
  have hfim : h.destino (some raiz) (movimentos cs) = (explorarSalas h (some raiz) stdin).sala :=
    hcs ▸ explorarSalasRastro_destino h (some raiz) stdin
  obtain ⟨q, hq⟩ := Option.ne_none_iff_exists'.mp
    (h.segue_destino_presente cs (some raiz) hs (by simp))
  refine ⟨explorarSalasRastro_sessao h (some raiz) stdin, ?_, ?_, hfim, ?_, ?_, ?_⟩
  · rw [hcs]
    exact h.segue_chain _ (none, some raiz) (explorarSalasRastroAux_segue h _ (some raiz) stdin)
  · intro k c hk
    exact ⟨movimentos (cs.take (k + 1)), (List.take_prefix _ cs).filterMap _,
      h.segue_destino cs (some raiz) k c hs hk,
      h.segue_presentes cs (some raiz) hs (by simp) c (List.getElem?_mem hk)⟩
  · obtain ⟨t', ht'⟩ := h.representa_destino_sub _ t (some raiz) q ha.1 hq
    obtain ⟨resto, q', s, hd, hs', hf⟩ := h.representa_folha t' q ht'
    exact ⟨resto, q', s, by rw [Heap.destino_append, hq, hd], hs', hf⟩
  · intro i j k a b c hij hjk hi hj hk hac
    exact h.segue_nao_volta t raiz cs ha hs i j k a b c hij hjk hi hj hk hac
  · have := h.representa_destino_length _ t (some raiz) q ha.1 hq
    unfold Arvore.altura
    omega

/-- C15, at the map of `main` for the input `x`, `e`, `d`, `s`. -/
theorem C15_witness :
    (explorarSalasRastro mansao (some 0) ['x', 'e', 'd', 's']).sessao =
        explorarSalas mansao (some 0) ['x', 'e', 'd', 's'] ∧
      List.Chain' mansao.passo
        [(none, some 0), (none, some 0), (some .esquerda, some 1), (some .direita, some 4)] ∧
      (∀ (k : Nat) (c : Option Direcao × Option Nat),
        [(none, some 0), (none, some 0), (some Direcao.esquerda, some 1),
          (some Direcao.direita, some 4)][k]? = some c →
        ∃ ds, ds <+: movimentos [(none, some 0), (none, some 0),
            (some Direcao.esquerda, some 1), (some Direcao.direita, some 4)] ∧
          c.2 = mansao.destino (some 0) ds ∧ c.2 ≠ none) ∧
      mansao.destino (some 0) (movimentos [(none, some 0), (none, some 0),
          (some Direcao.esquerda, some 1), (some Direcao.direita, some 4)]) =
        (explorarSalas mansao (some 0) ['x', 'e', 'd', 's']).sala ∧
      (∃ resto q s, mansao.destino (some 0) (movimentos [(none, some 0), (none, some 0),
          (some Direcao.esquerda, some 1), (some Direcao.direita, some 4)] ++ resto) = some q ∧
        mansao.sala q = some s ∧ s.folha) ∧
      (∀ (i j k : Nat) (a b c : Option Direcao × Option Nat), i ≤ j → j ≤ k →
        [(none, some 0), (none, some 0), (some Direcao.esquerda, some 1),
          (some Direcao.direita, some 4)][i]? = some a →
        [(none, some 0), (none, some 0), (some Direcao.esquerda, some 1),
          (some Direcao.direita, some 4)][j]? = some b →
        [(none, some 0), (none, some 0), (some Direcao.esquerda, some 1),
          (some Direcao.direita, some 4)][k]? = some c →
        a.2 = c.2 → b.2 = a.2) ∧
      (movimentos [(none, some 0), (none, some 0), (some Direcao.esquerda, some 1),
        (some Direcao.direita, some 4)]).length ≤ formaMansao.altura :=
  C15_so_desce_sem_voltar mansao formaMansao 0 ['x', 'e', 'd', 's'] _ (mansao_arvore 0) rfl

/-- C16: for every memory, every present room and every input, the iterative
explorer of the specification, a loop over a current-room variable, gives the
session of the recursive `explorarSalas`: the same output in the same order,
the same ending, the same final room and the same unread input. -/
theorem C16_iterativo_equivale_ao_recursivo (h : Heap) (raiz : Nat) (stdin : List Char) :
    explorarSalasIterativo h raiz stdin = explorarSalas h (some raiz) stdin := by
  rw [explorarSalasIterativo, lacoExplorar_eq h _ raiz stdin [] (Nat.lt_succ_self _),
    Sessao.apos_nil]

/-- C17: the map built by `main` is a tree of exactly 11 rooms whose root is
named "Hall de Entrada"; it has leaves three links below the root and leaves
one to two links below it (all of these are two links below), and no room
more than three links below, so its height is 3 and it is not a perfect
binary tree; the path right, right leads to the room named "Jardim", which
has children. -/
theorem C17_mapa_assimetrico (cap hall : Nat) (h : Heap)
    (hm : construirMapa { celulas := [], capacidade := cap } = .ok (hall, h)) :
    h.celulas.length = 11 ∧ formaMansao.numSalas = 11 ∧ h.arvore (some hall) formaMansao ∧
      (∃ s, h.sala hall = some s ∧ s.nome = "Hall de Entrada") ∧
      (∃ ds q s, ds.length = 3 ∧ h.destino (some hall) ds = some q ∧ h.sala q = some s ∧
        s.folha) ∧
      (∃ ds q s, 1 ≤ ds.length ∧ ds.length ≤ 2 ∧ h.destino (some hall) ds = some q ∧
        h.sala q = some s ∧ s.folha) ∧
      (∀ ds q s, h.destino (some hall) ds = some q → h.sala q = some s → s.folha →
        ds.length = 2 ∨ ds.length = 3) ∧
      (∀ ds q, h.destino (some hall) ds = some q → ds.length ≤ 3) ∧
      formaMansao.altura = 3 ∧ formaMansao.perfeita = false ∧
      (∃ q s, h.destino (some hall) [.direita, .direita] = some q ∧ h.sala q = some s ∧
        s.nome = "Jardim" ∧ ¬ s.folha) := by
  obtain ⟨k, -, rfl, rfl⟩ := construirMapa_inv hm
  have hprof : formaMansao.profundidade = 4 := rfl
  have hcurto : ∀ ds q, Heap.destino ⟨mansao.celulas, k⟩ (some 0) ds = some q →
      ds.length ≤ 3 := by
    intro ds q hd
    have := Heap.representa_destino_length _ ds formaMansao (some 0) q (mansao_arvore k).1 hd
    omega
  refine ⟨rfl, rfl, mansao_arvore k, ⟨_, rfl, rfl⟩,
    ⟨[.esquerda, .esquerda, .esquerda], 7, ⟨"Sala Secreta", none, none⟩, rfl, rfl, rfl,
      rfl, rfl⟩,
    ⟨[.esquerda, .direita], 4, ⟨"Escritorio", none, none⟩, by decide, by decide, rfl, rfl,
      rfl, rfl⟩,
    ?_, hcurto, rfl, rfl,
    ⟨6, ⟨"Jardim", some 9, some 10⟩, rfl, rfl, rfl, by decide⟩⟩
  intro ds q s hd hs hf
  have hlen := hcurto ds q hd
  rcases ds with _ | ⟨d1, _ | ⟨d2, _ | ⟨d3, _ | ⟨d4, ds⟩⟩⟩⟩
  · simp only [Heap.destino, Option.some.injEq] at hd
    subst hd
    simp [Heap.sala, mansao_celulas] at hs
    subst hs
    exact absurd hf (by decide)
  · cases d1 <;>
      simp [Heap.destino, Heap.filho, Heap.sala, mansao_celulas] at hd <;>
      subst hd <;> simp [Heap.sala, mansao_celulas] at hs <;> subst hs <;>
      exact absurd hf (by decide)
  · exact Or.inl rfl
  · exact Or.inr rfl
  · simp only [List.length_cons] at hlen
    omega

/-- C17, at the memory `main` builds with 11 blocks. -/
theorem C17_witness :
    mansao.celulas.length = 11 ∧ formaMansao.numSalas = 11 ∧
      mansao.arvore (some 0) formaMansao ∧
      (∃ s, mansao.sala 0 = some s ∧ s.nome = "Hall de Entrada") ∧
      (∃ ds q s, ds.length = 3 ∧ mansao.destino (some 0) ds = some q ∧ mansao.sala q = some s ∧
        s.folha) ∧
      (∃ ds q s, 1 ≤ ds.length ∧ ds.length ≤ 2 ∧ mansao.destino (some 0) ds = some q ∧
        mansao.sala q = some s ∧ s.folha) ∧
      (∀ ds q s, mansao.destino (some 0) ds = some q → mansao.sala q = some s → s.folha →
        ds.length = 2 ∨ ds.length = 3) ∧
      (∀ ds q, mansao.destino (some 0) ds = some q → ds.length ≤ 3) ∧
      formaMansao.altura = 3 ∧ formaMansao.perfeita = false ∧
      (∃ q s, mansao.destino (some 0) [.direita, .direita] = some q ∧ mansao.sala q = some s ∧
        s.nome = "Jardim" ∧ ¬ s.folha) :=
  C17_mapa_assimetrico 11 0 mansao rfl

/-- C18: in a session that starts at a present room every call on record
passes a present room, so the branch for an absent room is never taken: its
message is not written and no call ends there. -/
theorem C18_guarda_de_sala_nula_inalcancavel (h : Heap) (p : Nat) (stdin : List Char) :
    (∀ c ∈ (explorarSalasRastro h (some p) stdin).chamadas, c.2 ≠ none) ∧
      (explorarSalasRastro h (some p) stdin).sessao = explorarSalas h (some p) stdin ∧
      Saida.naoPodeIr ∉ (explorarSalas h (some p) stdin).saida ∧
      (explorarSalas h (some p) stdin).fim ≠ .salaNula := by
  refine ⟨?_, explorarSalasRastro_sessao h (some p) stdin,
    explorarSalas_presente h (stdin.length + 1) p stdin (Nat.lt_succ_self _)⟩
  intro c hc
  simp only [explorarSalasRastro, Rastro.apos, List.mem_cons] at hc
  rcases hc with rfl | hc
  · simp
  · exact h.segue_presentes _ (some p) (explorarSalasRastroAux_segue h _ (some p) stdin)
      (by simp) c hc

end DetectiveQuest
